import Mathlib

/-!
# A shallow embedding of `InstBasicBlockTracePass`

This file embeds `spvtools::opt::InstBasicBlockTracePass`
(`source/opt/inst_basic_block_trace_pass.cpp`, the variant whose increment is
emitted as a single `OpAtomicIAdd`) into Lean and proves the documented
properties of the pass against that embedding.

Modelling conventions:

* Machine integers (`uint32_t` ids, literals, version words) are `Nat`; the
  pass never performs wrapping arithmetic on them.
* The host IR facilities that the pass consumes (the id allocation authority
  `TakeNextId`, the deduplicating type and constant managers, the decoration
  manager, the feature manager, and the entry-point call-tree traversal) are
  external collaborators; they are modelled at their interface as explicit
  state: association tables for registered types and constants, a fresh-id
  counter, and a list of reachable functions in traversal order.
* C `assert` failures are modelled as unrecoverable errors (`Except.error`):
  an assert is the debug-build hard stop that signals a violated precondition.
* The two observer callbacks are modelled by registration flags plus append-only
  invocation logs; each log entry records the argument passed to the observer
  together with the module state at the instant of the call.
-/

namespace SpvOpt

/-- The SPIR-V opcodes this pass constructs or inspects (`spv::Op`). -/
inductive Op where
  | OpVariable
  | OpAccessChain
  | OpAtomicIAdd
  | OpLoad
  | OpIAdd
  | OpStore
  | OpName
  | OpMemberName
  | OpLabel
  | other (code : Nat)
deriving DecidableEq, Repr

/-- The operand kinds used by the pass (`spv_operand_type_t`). -/
inductive OperandType where
  | Id
  | ScopeId
  | MemorySemanticsId
  | LiteralInteger
  | LiteralString
deriving DecidableEq, Repr

/-- Payload of an operand: literal words, or a literal string
(`utils::MakeVector` of a C string). -/
inductive OperandData where
  | words (ws : List Nat)
  | str (s : String)
deriving DecidableEq, Repr

/-- One operand of an instruction (`spvtools::opt::Operand`). -/
structure Operand where
  ty : OperandType
  data : OperandData
deriving DecidableEq, Repr

/-- An IR instruction (`spvtools::opt::Instruction`): opcode, optional type id,
optional result id (0 encodes "none", as in SPIRV-Tools), and operands past the
result id. -/
structure Instruction where
  opcode : Op
  tyId : Nat
  resultId : Nat
  operands : List Operand
deriving DecidableEq, Repr

/-- A basic block (`spvtools::opt::BasicBlock`): its `OpLabel` instruction and
the instruction sequence after the label (`bb.begin() .. bb.end()`, which in
SPIRV-Tools does not contain the label). -/
structure BasicBlock where
  label : Instruction
  body : List Instruction
deriving DecidableEq, Repr

/-- `BasicBlock::id()`: the result id of the block's label instruction. -/
def BasicBlock.id (bb : BasicBlock) : Nat := bb.label.resultId

/-- A function (`spvtools::opt::Function`): its ordered basic blocks. -/
structure Function where
  blocks : List BasicBlock
deriving DecidableEq, Repr

/-- An `OpEntryPoint` instruction, reduced to the operand list the pass
mutates (`entry.AddOperand`). -/
structure EntryPoint where
  operands : List Operand
deriving DecidableEq, Repr

/-- A decoration record held by the decoration manager. -/
inductive Decoration where
  /-- `DecorationManager::AddDecoration(target, deco)` -/
  | deco (targetId deco : Nat)
  /-- `DecorationManager::AddMemberDecoration(target, member, deco, value)` -/
  | memberDeco (targetId member deco value : Nat)
  /-- `DecorationManager::AddDecorationVal(target, deco, value)` -/
  | decoVal (targetId deco value : Nat)
deriving DecidableEq, Repr

/-- Identity of a type registered with the type manager
(`spvtools::opt::analysis::Type`); decorations attached to a type object are
part of its identity, as in `analysis::Type::IsSame`.  `other` stands for any
pre-existing module type not built by this pass. -/
inductive TypeKey where
  | uint (width : Nat)
  | runtimeArray (elem : TypeKey) (decos : List (List Nat))
  | structOne (member : TypeKey) (decos : List (List Nat))
  | ptr (pointeeId : Nat) (storageClass : Nat)
  | other (code : Nat)
deriving DecidableEq, Repr

/-- Identity of a constant registered with the constant manager: an unsigned
integer constant of a given bit width and value. -/
inductive ConstKey where
  | uintConst (width : Nat) (value : Nat)
deriving DecidableEq, Repr

/-- The module being transformed (`spvtools::opt::Module`), reduced to the
parts this pass reads or mutates.  `reachableFunctions` is the enumeration
produced by the external call-tree traversal facility
(`IRContext::ProcessEntryPointCallTree`), in its traversal order. -/
structure Module where
  version : Nat
  entryPoints : List EntryPoint
  extensions : List String
  capabilities : List Nat
  debugInsts : List Instruction
  globals : List Instruction
  decorations : List Decoration
  reachableFunctions : List Function
deriving DecidableEq, Repr

/-- All reachable basic blocks of a module, in call-tree traversal order. -/
def Module.allBlocks (m : Module) : List BasicBlock :=
  (m.reachableFunctions.map Function.blocks).flatten

/- Interface constants of the SPIR-V standard headers (`spirv.hpp11`,
an external dependency of the pass). -/

/-- `spv::Scope::Device` -/
def scopeDevice : Nat := 1
/-- `spv::MemorySemanticsMask::MaskNone` (relaxed ordering) -/
def memorySemanticsRelaxed : Nat := 0
/-- `spv::Decoration::Block` -/
def decorationBlock : Nat := 2
/-- `spv::Decoration::ArrayStride` -/
def decorationArrayStride : Nat := 6
/-- `spv::Decoration::Binding` -/
def decorationBinding : Nat := 33
/-- `spv::Decoration::DescriptorSet` -/
def decorationDescriptorSet : Nat := 34
/-- `spv::Decoration::Offset` -/
def decorationOffset : Nat := 35
/-- `spv::StorageClass::StorageBuffer` -/
def storageClassStorageBuffer : Nat := 12
/-- `spv::Capability::Int64` -/
def capabilityInt64 : Nat := 11
/-- `spv::Capability::Int64Atomics` -/
def capabilityInt64Atomics : Nat := 12

/-- Modelled from the spec: `SPV_SPIRV_VERSION_WORD` lives in
`source/spirv_constant.h`, which is not among the provided sources.  The spec
gates the entry-point interface append on "the version that requires explicit
entry-point interface lists (SPIR-V 1.4)"; SPIR-V version words place the
major version in bits 16..23 and the minor version in bits 8..15. -/
def spirvVersionWord (major minor : Nat) : Nat := major * 2 ^ 16 + minor * 2 ^ 8

/-- `kTraceBufferDescriptorSet` -/
def kTraceBufferDescriptorSet : Nat := 5
/-- `kTraceBufferBinding` -/
def kTraceBufferBinding : Nat := 1
/-- `kSPV_KHR_storage_buffer_storage_class` -/
def kStorageBufferExtName : String := "SPV_KHR_storage_buffer_storage_class"

/-- Association-list lookup (the observable behaviour of `std::map::find` /
`std::map::at` and of the manager caches). -/
def alookup (m : List (Nat × Nat)) (k : Nat) : Option Nat :=
  match m with
  | [] => none
  | (k', v) :: rest => if k' = k then some v else alookup rest k

/-- Generic association lookup for the type / constant manager tables. -/
def tlookup {α : Type} [DecidableEq α] (m : List (α × Nat)) (k : α) : Option Nat :=
  match m with
  | [] => none
  | (k', v) :: rest => if k' = k then some v else tlookup rest k

/-- `std::map::operator[]` followed by assignment: update the value of an
existing key in place, or add the key at the end. -/
def mapAssign (m : List (Nat × Nat)) (k v : Nat) : List (Nat × Nat) :=
  match m with
  | [] => [(k, v)]
  | (k', v') :: rest =>
      if k' = k then (k, v) :: rest else (k', v') :: mapAssign rest k v

/-- The full mutable state threaded through the pass: the module, the external
manager facilities, and the pass instance's own fields
(`InstBasicBlockTracePass` members). -/
structure PassState where
  module : Module
  /-- `IRContext::TakeNextId` allocation counter; fresh ids count up from here. -/
  nextId : Nat
  /-- Registered types of the type manager, keyed by type identity. -/
  types : List (TypeKey × Nat)
  /-- Registered constants of the constant manager. -/
  consts : List (ConstKey × Nat)
  /-- Construction-time width flag `traceWithU64`. -/
  traceWithU64 : Bool
  /-- `origLabelToTraceIdx` -/
  origLabelToTraceIdx : List (Nat × Nat)
  /-- Memoized `basicBlockTraceBufferId` (0 = not yet computed). -/
  basicBlockTraceBufferId : Nat
  /-- Memoized `ptrStorageBufferRuntimeArrayTypeId` (0 = not yet computed). -/
  ptrStorageBufferRuntimeArrayTypeId : Nat
  /-- `storageBufferExtDefined` -/
  storageBufferExtDefined : Bool
  /-- `int64CapsDefined` -/
  int64CapsDefined : Bool
  /-- Whether `basicBlockCountCallbackFn` holds a callable target. -/
  hasCountCallback : Bool
  /-- Whether `basicBlockCorrespondenceCallbackFn` holds a callable target. -/
  hasMapCallback : Bool
  /-- Invocation log of the count observer: argument and the module state at
  the instant of the call. -/
  countLog : List (Nat × Module)
  /-- Invocation log of the correspondence observer: the map passed (by
  pointer, read-only) and the module state at the instant of the call. -/
  mapLog : List (List (Nat × Nat) × Module)
deriving Repr

/-- `IRContext::TakeNextId`: hand out the next fresh id. -/
def takeNextId (st : PassState) : Nat × PassState :=
  (st.nextId, { st with nextId := st.nextId + 1 })

/-- `TypeManager::GetTypeInstruction` / `GetRegisteredType`: return the id of
an already-registered identical type, or register the type under a fresh id. -/
def getTypeInstruction (st : PassState) (k : TypeKey) : Nat × PassState :=
  match tlookup st.types k with
  | some tid => (tid, st)
  | none =>
      let (tid, st') := takeNextId st
      (tid, { st' with types := st'.types ++ [(k, tid)] })

/-- `TypeManager::FindPointerToType`: the pointer type to a given type id in a
given storage class, registered on demand. -/
def findPointerToType (st : PassState) (pointeeId storageClass : Nat) :
    Nat × PassState :=
  getTypeInstruction st (.ptr pointeeId storageClass)

/-- `ConstantManager::GetConstant` + `GetDefiningInstruction`: the id of a
registered constant, registered under a fresh id on first request. -/
def getConstId (st : PassState) (k : ConstKey) : Nat × PassState :=
  match tlookup st.consts k with
  | some cid => (cid, st)
  | none =>
      let (cid, st') := takeNextId st
      (cid, { st' with consts := st'.consts ++ [(k, cid)] })

/-- `ConstantManager::GetUIntConstId`: 32-bit unsigned constant. -/
def getUIntConstId (st : PassState) (v : Nat) : Nat × PassState :=
  getConstId st (.uintConst 32 v)

/-- `DecorationManager::AddDecoration`. -/
def addDecoration (st : PassState) (targetId deco : Nat) : PassState :=
  { st with module :=
      { st.module with decorations :=
          st.module.decorations ++ [.deco targetId deco] } }

/-- `DecorationManager::AddMemberDecoration`. -/
def addMemberDecoration (st : PassState) (targetId member deco value : Nat) :
    PassState :=
  { st with module :=
      { st.module with decorations :=
          st.module.decorations ++ [.memberDeco targetId member deco value] } }

/-- `DecorationManager::AddDecorationVal`. -/
def addDecorationVal (st : PassState) (targetId deco value : Nat) : PassState :=
  { st with module :=
      { st.module with decorations :=
          st.module.decorations ++ [.decoVal targetId deco value] } }

/-- `IRContext::AddGlobalValue`. -/
def addGlobalValue (st : PassState) (inst : Instruction) : PassState :=
  { st with module :=
      { st.module with globals := st.module.globals ++ [inst] } }

/-- `IRContext::AddDebug2Inst`. -/
def addDebug2Inst (st : PassState) (inst : Instruction) : PassState :=
  { st with module :=
      { st.module with debugInsts := st.module.debugInsts ++ [inst] } }

/-- The guarded `AddExtension` call: `if (!HasExtension(e)) AddExtension(e)`.
`FeatureManager::HasExtension` reflects the module's declared extensions. -/
def addExtIfAbsent (exts : List String) (e : String) : List String :=
  if exts.contains e then exts else exts ++ [e]

/-- The guarded `AddCapability` call: `if (!HasCapability(c)) AddCapability(c)`. -/
def addCapIfAbsent (caps : List Nat) (c : Nat) : List Nat :=
  if caps.contains c then caps else caps ++ [c]

/-- `InstBasicBlockTracePass::addStorageBufferExt`: declare the storage-buffer
storage-class extension, guarded by the member flag and by
`FeatureManager::HasExtension`. -/
def addStorageBufferExt (st : PassState) : PassState :=
  if st.storageBufferExtDefined then st
  else
    let exts := addExtIfAbsent st.module.extensions kStorageBufferExtName
    { st with
      module := { st.module with extensions := exts },
      storageBufferExtDefined := true }

/-- `InstBasicBlockTracePass::addInt64Caps`: declare `Int64` and
`Int64Atomics`, each guarded by `FeatureManager::HasCapability`, the whole
body guarded by the member flag (the second guard observes the module state
after the first addition; the two capability codes are distinct). -/
def addInt64Caps (st : PassState) : PassState :=
  if st.int64CapsDefined then st
  else
    let caps := addCapIfAbsent
      (addCapIfAbsent st.module.capabilities capabilityInt64)
      capabilityInt64Atomics
    { st with
      module := { st.module with capabilities := caps },
      int64CapsDefined := true }

/-- The `OpName` debug instruction built by the pass. -/
def mkOpName (targetId : Nat) (s : String) : Instruction :=
  { opcode := .OpName, tyId := 0, resultId := 0,
    operands := [⟨.Id, .words [targetId]⟩, ⟨.LiteralString, .str s⟩] }

/-- The `OpMemberName` debug instruction built by the pass. -/
def mkOpMemberName (targetId member : Nat) (s : String) : Instruction :=
  { opcode := .OpMemberName, tyId := 0, resultId := 0,
    operands := [⟨.Id, .words [targetId]⟩,
                 ⟨.LiteralInteger, .words [member]⟩,
                 ⟨.LiteralString, .str s⟩] }

/-- The `OpVariable` for the trace buffer, in the storage-buffer storage
class. -/
def mkTraceBufferVar (ptrTypeId resultId : Nat) : Instruction :=
  { opcode := .OpVariable, tyId := ptrTypeId, resultId := resultId,
    operands := [⟨.LiteralInteger, .words [storageClassStorageBuffer]⟩] }

/-- The width-conditional capability step of the resource builder:
`if (traceWithU64) { addInt64Caps(); }`. -/
def maybeAddInt64Caps (st : PassState) : PassState :=
  if st.traceWithU64 then addInt64Caps st else st

/-- The version-gated entry-point interface step of the resource builder:
before SPIR-V 1.4 the interface lists only Input/Output globals; from 1.4 on,
every global referenced by the entry point's call tree must be listed, so the
new buffer is appended to all entry points. -/
def appendInterfaceVar (st : PassState) (bufId : Nat) : PassState :=
  if st.module.version ≥ spirvVersionWord 1 4 then
    let eps := st.module.entryPoints.map (fun e =>
      { e with operands := e.operands ++ [⟨.Id, .words [bufId]⟩] })
    { st with module := { st.module with entryPoints := eps } }
  else st

/-- The element type identity chosen by the width flag: unsigned integer of
width 64 (`traceWithU64`) or 32. -/
def elemTypeKey (u64 : Bool) : TypeKey := .uint (if u64 then 64 else 32)

/-- The runtime-array type identity built by `getBasicBlockTraceBufferId`:
the chosen element type, annotated with decoration `{ArrayStride, 8 or 4}`. -/
def traceArrayKey (u64 : Bool) : TypeKey :=
  .runtimeArray (elemTypeKey u64)
    [[decorationArrayStride, if u64 then 8 else 4]]

/-- The single-member struct type identity wrapping the runtime array. -/
def traceStructKey (u64 : Bool) : TypeKey := .structOne (traceArrayKey u64) []

/-- `InstBasicBlockTracePass::getBasicBlockTraceBufferId`: memoized
construction of the counter buffer global.  Mirrors the source line by line;
the `NumUses` runtime check of the source asserts a non-null string literal
and is therefore a no-op, and `IRContext::AnalyzeUses` is def-use analysis
bookkeeping with no effect on the module itself. -/
def getBasicBlockTraceBufferId (st : PassState) : Nat × PassState :=
  if st.basicBlockTraceBufferId ≠ 0 then (st.basicBlockTraceBufferId, st)
  else
    let (traceBufferTypeId, st) :=
      getTypeInstruction st (traceStructKey st.traceWithU64)
    let st := addDecoration st traceBufferTypeId decorationBlock
    let st := addMemberDecoration st traceBufferTypeId 0 decorationOffset 0
    let (traceBufferPointerTypeId, st) :=
      findPointerToType st traceBufferTypeId storageClassStorageBuffer
    let (traceBufferId, st) := takeNextId st
    let st := addGlobalValue st
      (mkTraceBufferVar traceBufferPointerTypeId traceBufferId)
    let st := addDebug2Inst st (mkOpName traceBufferTypeId "BasicBlockTraceBuffer")
    let st := addDebug2Inst st (mkOpMemberName traceBufferTypeId 0 "counters")
    let st := addDebug2Inst st (mkOpName traceBufferId "basic_block_trace_buffer")
    let st := addDecorationVal st traceBufferId decorationDescriptorSet
      kTraceBufferDescriptorSet
    let st := addDecorationVal st traceBufferId decorationBinding
      kTraceBufferBinding
    let st := addStorageBufferExt st
    let st := maybeAddInt64Caps st
    let st := appendInterfaceVar st traceBufferId
    (traceBufferId, { st with basicBlockTraceBufferId := traceBufferId })

/-- `InstBasicBlockTracePass::getPtrStorageBufferRuntimeArrayTypeId`:
memoized pointer-to-element type in the storage-buffer class (uint or ulong
depending on the width flag). -/
def getPtrStorageBufferRuntimeArrayTypeId (st : PassState) : Nat × PassState :=
  if st.ptrStorageBufferRuntimeArrayTypeId ≠ 0 then
    (st.ptrStorageBufferRuntimeArrayTypeId, st)
  else
    let (uintTypeId, st) :=
      if st.traceWithU64 then getTypeInstruction st (.uint 64)
      else getTypeInstruction st (.uint 32)
    let (resultId, st) :=
      findPointerToType st uintTypeId storageClassStorageBuffer
    (resultId, { st with ptrStorageBufferRuntimeArrayTypeId := resultId })

/-- `InstBasicBlockTracePass::labelBasicBlocks`, inner block loop of the
process function: assign the next index to each block, keyed by the label's
result id.  `assert(labelInst->HasResultId())` is modelled as a fatal error on
a label whose result id is absent (encoded 0). -/
def labelBlocksInFunc (acc : List (Nat × Nat) × Nat) :
    List BasicBlock → Except String (List (Nat × Nat) × Nat)
  | [] => .ok acc
  | bb :: rest =>
      if bb.id = 0 then
        .error "assert failed: labelInst->HasResultId()"
      else
        labelBlocksInFunc (mapAssign acc.1 bb.id acc.2, acc.2 + 1) rest

/-- `labelBasicBlocks`: drive the block-labelling process function over every
function reachable from the entry points, in traversal order. -/
def labelFuncs (acc : List (Nat × Nat) × Nat) :
    List Function → Except String (List (Nat × Nat) × Nat)
  | [] => .ok acc
  | f :: fs => do
      let acc' ← labelBlocksInFunc acc f.blocks
      labelFuncs acc' fs

/-- `InstBasicBlockTracePass::labelBasicBlocks`. -/
def labelBasicBlocks (st : PassState) : Except String PassState :=
  match labelFuncs (st.origLabelToTraceIdx, 0) st.module.reachableFunctions with
  | .error e => .error e
  | .ok (m, _) => .ok { st with origLabelToTraceIdx := m }

/-- The per-function captured values of the instrumentation lambda of
`Process`: the buffer id and pointer type captured at lambda creation, and
the ids computed in the per-function preamble. -/
structure FnParams where
  bbTraceBufferId : Nat
  ptrStorageBufferUintOrUlong : Nat
  uintConstZeroId : Nat
  uintConstOneId : Nat
  tyUint : Nat
  tyUlong : Nat
  ulongConstOneId : Nat
deriving Repr

/-- `bbStartPos->opcode() == spv::Op::OpVariable` -/
def isVariable (i : Instruction) : Bool := i.opcode == Op.OpVariable

/-- A block the loop actually instruments: after skipping the leading run of
`OpVariable` declarations something remains. -/
def instrumentable (bb : BasicBlock) : Bool :=
  !(bb.body.dropWhile isVariable).isEmpty

/-- The `OpAccessChain` the loop builds: pointer into the counter slot,
operands buffer id, member offset 0 (as a uint constant id), trace index (as a
uint constant id). -/
def mkAccessChain (ptrTypeId resultId bufferId zeroId idxConstId : Nat) :
    Instruction :=
  { opcode := .OpAccessChain, tyId := ptrTypeId, resultId := resultId,
    operands := [⟨.Id, .words [bufferId]⟩,
                 ⟨.Id, .words [zeroId]⟩,
                 ⟨.Id, .words [idxConstId]⟩] }

/-- The `OpAtomicIAdd` the loop builds.  Both width branches of the source
construct this same shape and differ only in the result type and the added
constant: operands are the pointer, the memory scope id (the uint constant 1
= `Device`), the memory semantics id (the uint constant 0 = relaxed), and the
value id of the added constant 1. -/
def mkAtomicAdd (tyId resultId ptrId scopeConstId semanticsConstId valConstId :
    Nat) : Instruction :=
  { opcode := .OpAtomicIAdd, tyId := tyId, resultId := resultId,
    operands := [⟨.Id, .words [ptrId]⟩,
                 ⟨.ScopeId, .words [scopeConstId]⟩,
                 ⟨.MemorySemanticsId, .words [semanticsConstId]⟩,
                 ⟨.Id, .words [valConstId]⟩] }

/-- The body of the per-block iteration of the instrumentation lambda in
`Process`.  `assert(false)` on an empty block and `std::map::at` on a missing
key are both modelled as fatal errors. -/
def processOneBlock (p : FnParams) (st : PassState) (bb : BasicBlock) :
    Except String (PassState × BasicBlock × Bool) :=
  if bb.body.isEmpty then
    .error "assert failed: empty basic block"
  else
    let rest := bb.body.dropWhile isVariable
    if rest.isEmpty then
      -- declaration-only block: `continue` without setting `changed`
      .ok (st, bb, false)
    else
      match alookup st.origLabelToTraceIdx bb.id with
      | none => .error "origLabelToTraceIdx.at: out of range"
      | some bbTraceIdx =>
          let (bbTraceIdxConstId, st) := getUIntConstId st bbTraceIdx
          let (counterPointerId, st) := takeNextId st
          let (counterIncValId, st) := takeNextId st
          let accessChain := mkAccessChain p.ptrStorageBufferUintOrUlong
            counterPointerId p.bbTraceBufferId p.uintConstZeroId bbTraceIdxConstId
          let atomicAdd :=
            if st.traceWithU64 then
              mkAtomicAdd p.tyUlong counterIncValId counterPointerId
                p.uintConstOneId p.uintConstZeroId p.ulongConstOneId
            else
              mkAtomicAdd p.tyUint counterIncValId counterPointerId
                p.uintConstOneId p.uintConstZeroId p.uintConstOneId
          .ok (st,
               { bb with body :=
                   bb.body.takeWhile isVariable
                     ++ [accessChain, atomicAdd]
                     ++ rest },
               true)

/-- The block loop of the instrumentation lambda, threading `changed`. -/
def processBlocks (p : FnParams) (st : PassState) (changed : Bool) :
    List BasicBlock → Except String (PassState × List BasicBlock × Bool)
  | [] => .ok (st, [], changed)
  | bb :: rest =>
      match processOneBlock p st bb with
      | .error e => .error e
      | .ok (st', bb', ch) =>
          match processBlocks p st' (changed || ch) rest with
          | .error e => .error e
          | .ok (st'', rest', changed') => .ok (st'', bb' :: rest', changed')

/-- The instrumentation lambda of `Process`, run on one reachable function:
the per-function preamble registers the uint constants 0 and 1, the uint type,
and (in 64-bit mode) the ulong type and the ulong constant 1 (whose defining
words `{1, 0}` denote the 64-bit value 1); then the block loop runs. -/
def processFunction (bbTraceBufferId ptrStorageBufferUintOrUlong : Nat)
    (st : PassState) (f : Function) :
    Except String (PassState × Function × Bool) :=
  let (uintConstZeroId, st) := getUIntConstId st 0
  let (uintConstOneId, st) := getUIntConstId st 1
  let (tyUint, st) := getTypeInstruction st (.uint 32)
  let (tyUlong, st) :=
    if st.traceWithU64 then getTypeInstruction st (.uint 64) else (0, st)
  let (ulongConstOneId, st) :=
    if st.traceWithU64 then getConstId st (.uintConst 64 1) else (0, st)
  let p : FnParams :=
    ⟨bbTraceBufferId, ptrStorageBufferUintOrUlong, uintConstZeroId,
     uintConstOneId, tyUint, tyUlong, ulongConstOneId⟩
  match processBlocks p st false f.blocks with
  | .error e => .error e
  | .ok (st, blocks', changed) => .ok (st, { blocks := blocks' }, changed)

/-- `IRContext::ProcessEntryPointCallTree` applied to the instrumentation
lambda: every reachable function is processed; the results are combined as
`modified = Pfn(fn) || modified`. -/
def processAllFunctions (bbTraceBufferId ptrStorageBufferUintOrUlong : Nat)
    (st : PassState) (modified : Bool) :
    List Function → Except String (PassState × List Function × Bool)
  | [] => .ok (st, [], modified)
  | f :: fs =>
      match processFunction bbTraceBufferId ptrStorageBufferUintOrUlong st f with
      | .error e => .error e
      | .ok (st', f', ch) =>
          match processAllFunctions bbTraceBufferId ptrStorageBufferUintOrUlong
              st' (ch || modified) fs with
          | .error e => .error e
          | .ok (st'', fs', modified') => .ok (st'', f' :: fs', modified')

/-- `Pass::Status` (the two values this pass can return). -/
inductive Status where
  | SuccessWithChange
  | SuccessWithoutChange
deriving DecidableEq, Repr

/-- The mutation phase of `Process`, after indexing and notification:
prepare the buffer resource and the pointer type, run the instrumentation
lambda over the entry-point call tree, and report whether any block was
modified. -/
def processTail (st : PassState) : Except String (Status × PassState) :=
  let (bbTraceBufferId, st) := getBasicBlockTraceBufferId st
  let (ptrStorageBufferUintOrUlong, st) :=
    getPtrStorageBufferRuntimeArrayTypeId st
  match processAllFunctions bbTraceBufferId ptrStorageBufferUintOrUlong st
      false st.module.reachableFunctions with
  | .error e => .error e
  | .ok (st, fns', modified) =>
      let st := { st with module :=
          { st.module with reachableFunctions := fns' } }
      .ok (if modified then Status.SuccessWithChange
           else Status.SuccessWithoutChange, st)

/-- `InstBasicBlockTracePass::Process`: label the blocks, notify the
registered observers (each invocation is logged together with the module
state it observes), build the buffer resource and the pointer type, run the
instrumentation lambda over the entry-point call tree, and report whether any
block was modified. -/
def Process (st : PassState) : Except String (Status × PassState) :=
  match labelBasicBlocks st with
  | .error e => .error e
  | .ok st =>
    let st :=
      if st.hasCountCallback then
        { st with countLog :=
            st.countLog ++ [(st.origLabelToTraceIdx.length, st.module)] }
      else st
    let st :=
      if st.hasMapCallback then
        { st with mapLog := st.mapLog ++ [(st.origLabelToTraceIdx, st.module)] }
      else st
    processTail st

/-! ## Test fixtures

Concrete modules used to instantiate the theorems below on closed inputs. -/

/-- A local declaration instruction (`OpVariable` with some ids). -/
def sampleVar (rid : Nat) : Instruction :=
  { opcode := .OpVariable, tyId := 90, resultId := rid,
    operands := [⟨.LiteralInteger, .words [7]⟩] }

/-- A generic non-declaration instruction. -/
def sampleCompute (rid : Nat) : Instruction :=
  { opcode := .OpIAdd, tyId := 91, resultId := rid,
    operands := [⟨.Id, .words [92]⟩, ⟨.Id, .words [93]⟩] }

/-- A terminator-like instruction (opcode outside the pass's vocabulary). -/
def sampleTerm : Instruction :=
  { opcode := .other 253, tyId := 0, resultId := 0, operands := [] }

/-- A basic block with a given label id and body. -/
def mkBB (lbl : Nat) (body : List Instruction) : BasicBlock :=
  { label := { opcode := .OpLabel, tyId := 0, resultId := lbl, operands := [] },
    body := body }

/-- A fresh pass state over a module: empty manager tables, ids from 100,
both observers registered, all memo fields unset. -/
def mkState (m : Module) (u64 : Bool) : PassState :=
  { module := m, nextId := 100, types := [], consts := [],
    traceWithU64 := u64, origLabelToTraceIdx := [],
    basicBlockTraceBufferId := 0, ptrStorageBufferRuntimeArrayTypeId := 0,
    storageBufferExtDefined := false, int64CapsDefined := false,
    hasCountCallback := true, hasMapCallback := true,
    countLog := [], mapLog := [] }

/-- A small module: two reachable functions, three blocks; the entry block
has two leading declarations, the others none; one declaration-only block. -/
def sampleModule : Module :=
  { version := spirvVersionWord 1 4,
    entryPoints := [⟨[⟨.LiteralInteger, .words [4]⟩]⟩],
    extensions := [], capabilities := [],
    debugInsts := [], globals := [], decorations := [],
    reachableFunctions :=
      [⟨[mkBB 10 [sampleVar 40, sampleVar 41, sampleCompute 42, sampleTerm],
         mkBB 11 [sampleCompute 43, sampleTerm]]⟩,
       ⟨[mkBB 12 [sampleTerm]]⟩] }

/-- A module whose only reachable block is declaration-only. -/
def declOnlyModule : Module :=
  { version := spirvVersionWord 1 0,
    entryPoints := [⟨[]⟩],
    extensions := [], capabilities := [],
    debugInsts := [], globals := [], decorations := [],
    reachableFunctions := [⟨[mkBB 10 [sampleVar 40, sampleVar 41]]⟩] }

/-- A module containing a declaration-only block and an instrumentable
block. -/
def mixedModule : Module :=
  { version := spirvVersionWord 1 0,
    entryPoints := [⟨[]⟩],
    extensions := [], capabilities := [],
    debugInsts := [], globals := [], decorations := [],
    reachableFunctions :=
      [⟨[mkBB 10 [sampleVar 40], mkBB 11 [sampleCompute 43, sampleTerm]]⟩] }

/-- A module containing a genuinely empty basic block. -/
def emptyBlockModule : Module :=
  { version := spirvVersionWord 1 0,
    entryPoints := [⟨[]⟩],
    extensions := [], capabilities := [],
    debugInsts := [], globals := [], decorations := [],
    reachableFunctions := [⟨[mkBB 10 []]⟩] }

/-- A module containing a block whose label lacks a result id. -/
def noLabelIdModule : Module :=
  { version := spirvVersionWord 1 0,
    entryPoints := [⟨[]⟩],
    extensions := [], capabilities := [],
    debugInsts := [], globals := [], decorations := [],
    reachableFunctions := [⟨[mkBB 0 [sampleTerm]]⟩] }

/-- The dense enumeration of a block list starting at a given index. -/
def enumBlocks (i : Nat) : List BasicBlock → List (Nat × Nat)
  | [] => []
  | bb :: rest => (bb.id, i) :: enumBlocks (i + 1) rest

/-- Lookup-preserving extension of a manager table: every registered entry
keeps its id.  The deduplicating managers only ever append fresh keys, so all
earlier ids remain stable for the rest of the run. -/
def TSub {α : Type} [DecidableEq α] (m m' : List (α × Nat)) : Prop :=
  ∀ k v, tlookup m k = some v → tlookup m' k = some v

/-- The pass-instance and observer fields no state-manager primitive ever
touches. -/
structure ObsFrame (st st' : PassState) : Prop where
  countLog : st'.countLog = st.countLog
  mapLog : st'.mapLog = st.mapLog
  origLabel : st'.origLabelToTraceIdx = st.origLabelToTraceIdx
  u64flag : st'.traceWithU64 = st.traceWithU64
  hasCount : st'.hasCountCallback = st.hasCountCallback
  hasMap : st'.hasMapCallback = st.hasMapCallback

/-- The module fields none of the three tail steps of the resource builder
modifies. -/
structure ModuleShell (m m' : Module) : Prop where
  globals : m'.globals = m.globals
  debugInsts : m'.debugInsts = m.debugInsts
  decorations : m'.decorations = m.decorations
  version : m'.version = m.version
  reachableFunctions : m'.reachableFunctions = m.reachableFunctions

/-- The state fields none of the three tail steps of the resource builder
modifies. -/
structure StateShell (st st' : PassState) : Prop where
  types : st'.types = st.types
  consts : st'.consts = st.consts
  nextId : st'.nextId = st.nextId
  bufferId : st'.basicBlockTraceBufferId = st.basicBlockTraceBufferId
  ptrId : st'.ptrStorageBufferRuntimeArrayTypeId =
    st.ptrStorageBufferRuntimeArrayTypeId
  obs : ObsFrame st st'

/-- Well-formedness of the id-allocation state: the allocator never hands out
the null id, and every registered type id is non-null. -/
def StateWf (st : PassState) : Prop :=
  0 < st.nextId ∧ ∀ p ∈ st.types, 0 < p.2

/-- What the per-block instrumentation step can never change: it allocates
ids and registers constants, nothing else. -/
structure BlockFrame (st st' : PassState) : Prop where
  module : st'.module = st.module
  origLabel : st'.origLabelToTraceIdx = st.origLabelToTraceIdx
  types : st'.types = st.types
  u64flag : st'.traceWithU64 = st.traceWithU64
  countLog : st'.countLog = st.countLog
  mapLog : st'.mapLog = st.mapLog
  hasCount : st'.hasCountCallback = st.hasCountCallback
  hasMap : st'.hasMapCallback = st.hasMapCallback
  bufferId : st'.basicBlockTraceBufferId = st.basicBlockTraceBufferId
  ptrId : st'.ptrStorageBufferRuntimeArrayTypeId =
    st.ptrStorageBufferRuntimeArrayTypeId
  extDefined : st'.storageBufferExtDefined = st.storageBufferExtDefined
  capsDefined : st'.int64CapsDefined = st.int64CapsDefined
  consts : TSub st.consts st'.consts

/-- The shape of an instrumented block: the leading declaration run is kept
in place; exactly the address-compute instruction and the atomic-add
instruction are spliced in before the first non-declaration instruction; the
trace-index constant referenced resolves, in the constant table, to the
block's assigned index. -/
def BlockShape (p : FnParams) (u64 : Bool) (idxMap : List (Nat × Nat))
    (consts : List (ConstKey × Nat)) (bb bb' : BasicBlock) : Prop :=
  ∃ t cid nPtr,
    alookup idxMap bb.id = some t ∧
    tlookup consts (.uintConst 32 t) = some cid ∧
    bb'.label = bb.label ∧
    bb'.body = bb.body.takeWhile isVariable
      ++ [mkAccessChain p.ptrStorageBufferUintOrUlong nPtr p.bbTraceBufferId
            p.uintConstZeroId cid,
          mkAtomicAdd (if u64 then p.tyUlong else p.tyUint) (nPtr + 1) nPtr
            p.uintConstOneId p.uintConstZeroId
            (if u64 then p.ulongConstOneId else p.uintConstOneId)]
      ++ bb.body.dropWhile isVariable

/-- What one run of the instrumentation lambda can never change in the
pass-instance state (it registers types and constants and allocates ids; the
module itself is only changed through the returned function body). -/
structure FuncFrame (st st' : PassState) : Prop where
  module : st'.module = st.module
  origLabel : st'.origLabelToTraceIdx = st.origLabelToTraceIdx
  u64flag : st'.traceWithU64 = st.traceWithU64
  countLog : st'.countLog = st.countLog
  mapLog : st'.mapLog = st.mapLog
  hasCount : st'.hasCountCallback = st.hasCountCallback
  hasMap : st'.hasMapCallback = st.hasMapCallback
  bufferId : st'.basicBlockTraceBufferId = st.basicBlockTraceBufferId
  ptrId : st'.ptrStorageBufferRuntimeArrayTypeId =
    st.ptrStorageBufferRuntimeArrayTypeId
  extDefined : st'.storageBufferExtDefined = st.storageBufferExtDefined
  capsDefined : st'.int64CapsDefined = st.int64CapsDefined
  types : TSub st.types st'.types
  consts : TSub st.consts st'.consts

/-- Whether a pass run succeeded. -/
def isOkResult {α : Type} (r : Except String α) : Bool :=
  match r with
  | .ok _ => true
  | .error _ => false

/-- Concrete per-function parameters for closed-input runs. -/
def sampleParams : FnParams := ⟨50, 51, 52, 53, 54, 55, 56⟩

/-- A 32-bit fresh state whose index map already covers the sample labels. -/
def idxState : PassState :=
  { mkState sampleModule false with
      origLabelToTraceIdx := [(10, 0), (11, 1), (12, 2)] }

/-- The 64-bit variant of `idxState`. -/
def idxState64 : PassState :=
  { mkState sampleModule true with
      origLabelToTraceIdx := [(10, 0), (11, 1), (12, 2)] }

/-- A single-function fixture whose only block is instrumentable. -/
def instrBlockFunc : Function := ⟨[mkBB 11 [sampleCompute 43, sampleTerm]]⟩

/-! ## Association-list lemmas -/

/-- The keys of an index map. -/
def keys (m : List (Nat × Nat)) : List Nat := m.map Prod.fst

@[simp] theorem keys_nil : keys [] = [] := rfl

@[simp] theorem keys_cons {a b : Nat} {m : List (Nat × Nat)} :
    keys ((a, b) :: m) = a :: keys m := rfl

@[simp] theorem keys_append {m l : List (Nat × Nat)} :
    keys (m ++ l) = keys m ++ keys l := by simp [keys]

@[simp] theorem alookup_nil {k : Nat} : alookup [] k = none := rfl

@[simp] theorem alookup_cons {a b k : Nat} {m : List (Nat × Nat)} :
    alookup ((a, b) :: m) k = if a = k then some b else alookup m k := rfl

theorem alookup_append_left {m l : List (Nat × Nat)} {k v : Nat}
    (h : alookup m k = some v) : alookup (m ++ l) k = some v := by
  induction m with
  | nil => simp at h
  | cons p rest ih =>
      obtain ⟨k', v'⟩ := p
      by_cases hk : k' = k
      · simpa [hk] using h
      · simp [hk] at h ⊢; exact ih h

theorem alookup_append_right {m l : List (Nat × Nat)} {k : Nat}
    (h : alookup m k = none) : alookup (m ++ l) k = alookup l k := by
  induction m with
  | nil => simp
  | cons p rest ih =>
      obtain ⟨k', v'⟩ := p
      by_cases hk : k' = k
      · simp [hk] at h
      · simp [hk] at h ⊢; exact ih h

theorem alookup_eq_none_of_not_mem {m : List (Nat × Nat)} {k : Nat}
    (h : k ∉ keys m) : alookup m k = none := by
  induction m with
  | nil => rfl
  | cons p rest ih =>
      obtain ⟨k', v'⟩ := p
      simp at h
      rw [alookup_cons, if_neg (fun he => h.1 he.symm)]
      exact ih h.2

theorem not_mem_keys_of_alookup_eq_none {m : List (Nat × Nat)} {k : Nat}
    (h : alookup m k = none) : k ∉ keys m := by
  induction m with
  | nil => simp
  | cons p rest ih =>
      obtain ⟨k', v'⟩ := p
      by_cases hk : k' = k
      · simp [hk] at h
      · simp [hk] at h
        simp
        exact ⟨fun he => hk he.symm, ih h⟩

theorem isSome_alookup_of_mem_keys {m : List (Nat × Nat)} {k : Nat}
    (h : k ∈ keys m) : (alookup m k).isSome := by
  cases hl : alookup m k with
  | none => exact absurd h (not_mem_keys_of_alookup_eq_none hl)
  | some v => rfl

theorem mapAssign_of_not_mem {m : List (Nat × Nat)} {k v : Nat}
    (h : k ∉ keys m) : mapAssign m k v = m ++ [(k, v)] := by
  induction m with
  | nil => rfl
  | cons p rest ih =>
      obtain ⟨k', v'⟩ := p
      simp at h
      rw [mapAssign, if_neg (fun he => h.1 he.symm), ih h.2]
      simp

theorem mem_keys_mapAssign {m : List (Nat × Nat)} {k v k' : Nat} :
    k' ∈ keys (mapAssign m k v) ↔ k' ∈ keys m ∨ k' = k := by
  induction m with
  | nil => simp [mapAssign]
  | cons p rest ih =>
      obtain ⟨ka, va⟩ := p
      by_cases hk : ka = k
      · subst hk
        rw [mapAssign, if_pos rfl]
        simp
        tauto
      · rw [mapAssign, if_neg hk]
        simp [ih]
        tauto

/-! ## Lemmas about the block indexer -/

theorem enumBlocks_length (i : Nat) (bs : List BasicBlock) :
    (enumBlocks i bs).length = bs.length := by
  induction bs generalizing i with
  | nil => rfl
  | cons bb rest ih => simp [enumBlocks, ih]

theorem keys_enumBlocks (i : Nat) (bs : List BasicBlock) :
    keys (enumBlocks i bs) = bs.map BasicBlock.id := by
  induction bs generalizing i with
  | nil => rfl
  | cons bb rest ih => simp [enumBlocks, keys] at *; exact ih _

theorem labelBlocksInFunc_append (acc : List (Nat × Nat) × Nat)
    (xs ys : List BasicBlock) :
    labelBlocksInFunc acc (xs ++ ys) =
      (labelBlocksInFunc acc xs).bind fun a => labelBlocksInFunc a ys := by
  induction xs generalizing acc with
  | nil => rfl
  | cons bb rest ih =>
      by_cases h : bb.id = 0
      · simp [labelBlocksInFunc, h, Except.bind]
      · simp [labelBlocksInFunc, h, ih]

theorem labelFuncs_eq_flat (acc : List (Nat × Nat) × Nat) (fs : List Function) :
    labelFuncs acc fs =
      labelBlocksInFunc acc ((fs.map Function.blocks).flatten) := by
  induction fs generalizing acc with
  | nil => rfl
  | cons f rest ih =>
      simp only [List.map_cons, List.flatten_cons, labelBlocksInFunc_append]
      rw [labelFuncs]
      cases h : labelBlocksInFunc acc f.blocks with
      | error e => rfl
      | ok a =>
          show labelFuncs a rest = _
          rw [ih]
          rfl

/-- Successful labelling of a run of blocks with fresh, pairwise distinct,
non-null labels appends exactly their dense enumeration. -/
theorem labelBlocksInFunc_ok (m : List (Nat × Nat)) (i : Nat)
    (bs : List BasicBlock)
    (hids : ∀ bb ∈ bs, bb.id ≠ 0)
    (hfresh : ∀ bb ∈ bs, bb.id ∉ keys m)
    (hnodup : (bs.map BasicBlock.id).Nodup) :
    labelBlocksInFunc (m, i) bs = .ok (m ++ enumBlocks i bs, i + bs.length) := by
  induction bs generalizing m i with
  | nil => simp [labelBlocksInFunc, enumBlocks]
  | cons bb rest ih =>
      have hid : bb.id ≠ 0 := hids bb (by simp)
      have hf : bb.id ∉ keys m := hfresh bb (by simp)
      rw [labelBlocksInFunc, if_neg hid, mapAssign_of_not_mem hf]
      have hnodup' : (rest.map BasicBlock.id).Nodup := by
        simpa using hnodup.of_cons
      have hni : bb.id ∉ rest.map BasicBlock.id := by
        simpa using (List.nodup_cons.1 hnodup).1
      have hfresh' : ∀ b ∈ rest, b.id ∉ keys (m ++ [(bb.id, i)]) := by
        intro b hb
        simp
        refine ⟨hfresh b (by simp [hb]), fun he => ?_⟩
        exact hni (List.mem_map.2 ⟨b, hb, he⟩)
      rw [ih (m ++ [(bb.id, i)]) (i + 1)
        (fun b hb => hids b (by simp [hb])) hfresh' hnodup']
      have hn : i + 1 + rest.length = i + (bb :: rest).length := by
        simp; omega
      rw [hn]
      simp [enumBlocks, List.append_assoc]

theorem alookup_enumBlocks_get (bs : List BasicBlock) (i : Nat)
    (hnodup : (bs.map BasicBlock.id).Nodup)
    (j : Nat) (hj : j < bs.length) :
    alookup (enumBlocks i bs) (bs.get ⟨j, hj⟩).id = some (i + j) := by
  induction bs generalizing i j with
  | nil => simp at hj
  | cons bb rest ih =>
      cases j with
      | zero => simp [enumBlocks]
      | succ j' =>
          have hj' : j' < rest.length := by simpa using hj
          have hne : bb.id ≠ (rest.get ⟨j', hj'⟩).id := by
            intro he
            have hmem : bb.id ∈ rest.map BasicBlock.id :=
              List.mem_map.2 ⟨rest.get ⟨j', hj'⟩, List.get_mem _ _ _, he.symm⟩
            exact ((List.nodup_cons.1 hnodup).1) (by simpa using hmem)
          have hget : (bb :: rest).get ⟨j' + 1, hj⟩ = rest.get ⟨j', hj'⟩ := rfl
          rw [hget]
          rw [enumBlocks, alookup_cons, if_neg hne,
            ih (i + 1) (by simpa using hnodup.of_cons) j' hj']
          congr 1
          omega

theorem alookup_enumBlocks_some (bs : List BasicBlock) (i : Nat) (l n : Nat)
    (h : alookup (enumBlocks i bs) l = some n) :
    ∃ j, ∃ hj : j < bs.length, (bs.get ⟨j, hj⟩).id = l ∧ n = i + j := by
  induction bs generalizing i with
  | nil => simp [enumBlocks, alookup] at h
  | cons bb rest ih =>
      rw [enumBlocks, alookup_cons] at h
      by_cases he : bb.id = l
      · rw [if_pos he] at h
        have hn : n = i := by
          have := h; injection this with h'; omega
        exact ⟨0, by simp, by simpa using he, by omega⟩
      · rw [if_neg he] at h
        obtain ⟨j, hj, hl, hn⟩ := ih (i + 1) h
        exact ⟨j + 1, by simpa using Nat.succ_lt_succ hj, hl, by omega⟩

/-- The canonical successful run of `labelBasicBlocks`: with pairwise
distinct non-null labels and an empty initial map, the final map is the dense
enumeration of all reachable blocks in traversal order. -/
theorem labelBasicBlocks_ok (st : PassState)
    (hinit : st.origLabelToTraceIdx = [])
    (hids : ∀ bb ∈ st.module.allBlocks, bb.id ≠ 0)
    (hnodup : (st.module.allBlocks.map BasicBlock.id).Nodup) :
    labelBasicBlocks st =
      .ok { st with origLabelToTraceIdx := enumBlocks 0 st.module.allBlocks } := by
  unfold labelBasicBlocks
  rw [labelFuncs_eq_flat, hinit]
  have : labelBlocksInFunc ([], 0) st.module.allBlocks =
      .ok ([] ++ enumBlocks 0 st.module.allBlocks, 0 + st.module.allBlocks.length) :=
    labelBlocksInFunc_ok [] 0 _ hids (by simp [keys]) hnodup
  rw [Module.allBlocks] at this
  rw [this]
  rfl

/-- The failure form of the indexer: some label lacks a result id. -/
theorem labelBlocksInFunc_error (acc : List (Nat × Nat) × Nat)
    (bs : List BasicBlock)
    (h : ∃ bb ∈ bs, bb.id = 0) :
    ∃ e, labelBlocksInFunc acc bs = .error e := by
  induction bs generalizing acc with
  | nil => simp at h
  | cons bb rest ih =>
      by_cases hz : bb.id = 0
      · exact ⟨_, by rw [labelBlocksInFunc, if_pos hz]⟩
      · obtain ⟨b, hb, hbz⟩ := h
        rcases List.mem_cons.1 hb with hb' | hb'
        · subst hb'; exact absurd hbz hz
        · obtain ⟨e, he⟩ := ih _ ⟨b, hb', hbz⟩
          exact ⟨e, by rw [labelBlocksInFunc, if_neg hz, he]⟩

/-- Map completeness: after a successful labelling pass, every processed
block's label is a key of the resulting map (no distinctness needed). -/
theorem labelBlocksInFunc_complete (acc : List (Nat × Nat) × Nat)
    (bs : List BasicBlock) (out : List (Nat × Nat) × Nat)
    (h : labelBlocksInFunc acc bs = .ok out) :
    (∀ k, k ∈ keys acc.1 → k ∈ keys out.1) ∧
    (∀ bb ∈ bs, bb.id ∈ keys out.1) := by
  induction bs generalizing acc with
  | nil =>
      rw [labelBlocksInFunc] at h
      cases h
      exact ⟨fun k hk => hk, by simp⟩
  | cons bb rest ih =>
      rw [labelBlocksInFunc] at h
      by_cases hz : bb.id = 0
      · rw [if_pos hz] at h; exact absurd h (by simp)
      · rw [if_neg hz] at h
        obtain ⟨h1, h2⟩ := ih _ h
        refine ⟨fun k hk => h1 k ?_, ?_⟩
        · exact mem_keys_mapAssign.2 (Or.inl hk)
        · intro b hb
          rcases List.mem_cons.1 hb with hb' | hb'
          · subst hb'
            exact h1 _ (mem_keys_mapAssign.2 (Or.inr rfl))
          · exact h2 b hb'

/-- **C1.** For every well-formed input module (pairwise distinct, present
label ids; fresh pass instance), `labelBasicBlocks` succeeds and the trace
index map is a bijection from the labels of the reachable blocks onto
`[0, N)` where `N` is the number of reachable blocks: the block visited
`j`-th is mapped to index `j` (dense assignment in visitation order, no
duplicates), and conversely every assigned index `n` is below `N` and is
assigned exactly to the label of the `n`-th visited block. -/
theorem labelBasicBlocks_bijection (st : PassState)
    (hinit : st.origLabelToTraceIdx = [])
    (hids : ∀ bb ∈ st.module.allBlocks, bb.label.resultId ≠ 0)
    (hnodup : (st.module.allBlocks.map BasicBlock.id).Nodup) :
    ∃ st', labelBasicBlocks st = .ok st' ∧
      st'.origLabelToTraceIdx.length = st.module.allBlocks.length ∧
      (∀ j (hj : j < st.module.allBlocks.length),
        alookup st'.origLabelToTraceIdx
          (st.module.allBlocks.get ⟨j, hj⟩).id = some j) ∧
      (∀ l n, alookup st'.origLabelToTraceIdx l = some n →
        ∃ hn : n < st.module.allBlocks.length,
          (st.module.allBlocks.get ⟨n, hn⟩).id = l) := by
  refine ⟨_, labelBasicBlocks_ok st hinit hids hnodup, ?_, ?_, ?_⟩
  · simpa using enumBlocks_length 0 st.module.allBlocks
  · intro j hj
    simpa using alookup_enumBlocks_get st.module.allBlocks 0 hnodup j hj
  · intro l n h
    obtain ⟨j, hj, hl, hn⟩ := alookup_enumBlocks_some _ _ _ _ h
    have : n = j := by omega
    subst this
    exact ⟨hj, hl⟩

/-! ## Generic manager-table lemmas -/

theorem tlookup_append_left {α : Type} [DecidableEq α]
    {m l : List (α × Nat)} {k : α} {v : Nat}
    (h : tlookup m k = some v) : tlookup (m ++ l) k = some v := by
  induction m with
  | nil => simp [tlookup] at h
  | cons p rest ih =>
      obtain ⟨k', v'⟩ := p
      by_cases hk : k' = k
      · simp [tlookup, hk] at h ⊢; exact h
      · simp [tlookup, hk] at h ⊢; exact ih h

theorem tlookup_append_right {α : Type} [DecidableEq α]
    {m l : List (α × Nat)} {k : α}
    (h : tlookup m k = none) : tlookup (m ++ l) k = tlookup l k := by
  induction m with
  | nil => simp
  | cons p rest ih =>
      obtain ⟨k', v'⟩ := p
      by_cases hk : k' = k
      · simp [tlookup, hk] at h
      · simp [tlookup, hk] at h ⊢; exact ih h

theorem tlookup_mem {α : Type} [DecidableEq α]
    {m : List (α × Nat)} {k : α} {v : Nat}
    (h : tlookup m k = some v) : (k, v) ∈ m := by
  induction m with
  | nil => simp [tlookup] at h
  | cons p rest ih =>
      obtain ⟨k', v'⟩ := p
      by_cases hk : k' = k
      · simp [tlookup, hk] at h; simp [hk, h]
      · simp [tlookup, hk] at h; simp [ih h]

theorem TSub.sub_refl {α : Type} [DecidableEq α] {m : List (α × Nat)} : TSub m m :=
  fun _ _ h => h

theorem TSub.sub_trans {α : Type} [DecidableEq α] {m m' m'' : List (α × Nat)}
    (h1 : TSub m m') (h2 : TSub m' m'') : TSub m m'' :=
  fun k v h => h2 k v (h1 k v h)

theorem TSub.append {α : Type} [DecidableEq α] {m l : List (α × Nat)} :
    TSub m (m ++ l) := fun _ _ h => tlookup_append_left h

/-! ## Primitive operation facts -/

theorem ObsFrame.obs_refl (st : PassState) : ObsFrame st st :=
  ⟨rfl, rfl, rfl, rfl, rfl, rfl⟩

theorem ObsFrame.obs_trans {s1 s2 s3 : PassState}
    (h1 : ObsFrame s1 s2) (h2 : ObsFrame s2 s3) : ObsFrame s1 s3 :=
  ⟨h2.countLog.trans h1.countLog, h2.mapLog.trans h1.mapLog,
   h2.origLabel.trans h1.origLabel, h2.u64flag.trans h1.u64flag,
   h2.hasCount.trans h1.hasCount, h2.hasMap.trans h1.hasMap⟩

/-- Everything `getTypeInstruction` guarantees: registration of the requested
key, table extension, and which state components it can touch. -/
theorem getTypeInstruction_spec (st : PassState) (k : TypeKey) :
    (getTypeInstruction st k).2.module = st.module ∧
    (getTypeInstruction st k).2.consts = st.consts ∧
    ObsFrame st (getTypeInstruction st k).2 ∧
    (getTypeInstruction st k).2.basicBlockTraceBufferId =
      st.basicBlockTraceBufferId ∧
    (getTypeInstruction st k).2.ptrStorageBufferRuntimeArrayTypeId =
      st.ptrStorageBufferRuntimeArrayTypeId ∧
    (getTypeInstruction st k).2.storageBufferExtDefined =
      st.storageBufferExtDefined ∧
    (getTypeInstruction st k).2.int64CapsDefined = st.int64CapsDefined ∧
    tlookup (getTypeInstruction st k).2.types k = some (getTypeInstruction st k).1 ∧
    TSub st.types (getTypeInstruction st k).2.types ∧
    st.nextId ≤ (getTypeInstruction st k).2.nextId ∧
    (∀ p ∈ (getTypeInstruction st k).2.types,
      p ∈ st.types ∨ p.2 = st.nextId) := by
  unfold getTypeInstruction takeNextId
  cases h : tlookup st.types k with
  | some tid =>
      refine ⟨rfl, rfl, ObsFrame.obs_refl st, rfl, rfl, rfl, rfl, h, TSub.sub_refl, le_refl _, ?_⟩
      intro p hp; exact Or.inl hp
  | none =>
      refine ⟨rfl, rfl, ⟨rfl, rfl, rfl, rfl, rfl, rfl⟩, rfl, rfl, rfl, rfl, ?_, TSub.append,
        Nat.le_succ _, ?_⟩
      · rw [tlookup_append_right h]; simp [tlookup]
      · intro p hp
        rcases List.mem_append.1 hp with hp | hp
        · exact Or.inl hp
        · simp at hp; subst hp; exact Or.inr rfl

/-- Everything `getConstId` guarantees. -/
theorem getConstId_spec (st : PassState) (k : ConstKey) :
    (getConstId st k).2.module = st.module ∧
    (getConstId st k).2.types = st.types ∧
    ObsFrame st (getConstId st k).2 ∧
    (getConstId st k).2.basicBlockTraceBufferId = st.basicBlockTraceBufferId ∧
    (getConstId st k).2.ptrStorageBufferRuntimeArrayTypeId =
      st.ptrStorageBufferRuntimeArrayTypeId ∧
    (getConstId st k).2.storageBufferExtDefined = st.storageBufferExtDefined ∧
    (getConstId st k).2.int64CapsDefined = st.int64CapsDefined ∧
    tlookup (getConstId st k).2.consts k = some (getConstId st k).1 ∧
    TSub st.consts (getConstId st k).2.consts ∧
    st.nextId ≤ (getConstId st k).2.nextId := by
  unfold getConstId takeNextId
  cases h : tlookup st.consts k with
  | some cid =>
      exact ⟨rfl, rfl, ObsFrame.obs_refl st, rfl, rfl, rfl, rfl, h, TSub.sub_refl, le_refl _⟩
  | none =>
      refine ⟨rfl, rfl, ⟨rfl, rfl, rfl, rfl, rfl, rfl⟩, rfl, rfl, rfl, rfl, ?_, TSub.append,
        Nat.le_succ _⟩
      rw [tlookup_append_right h]; simp [tlookup]

/-- The memoized fast path of the buffer accessor. -/
theorem getBasicBlockTraceBufferId_cached (st : PassState)
    (h : st.basicBlockTraceBufferId ≠ 0) :
    getBasicBlockTraceBufferId st = (st.basicBlockTraceBufferId, st) := by
  unfold getBasicBlockTraceBufferId
  rw [if_pos h]

/-- The memoized fast path of the pointer-type accessor. -/
theorem getPtrStorageBufferRuntimeArrayTypeId_cached (st : PassState)
    (h : st.ptrStorageBufferRuntimeArrayTypeId ≠ 0) :
    getPtrStorageBufferRuntimeArrayTypeId st =
      (st.ptrStorageBufferRuntimeArrayTypeId, st) := by
  unfold getPtrStorageBufferRuntimeArrayTypeId
  rw [if_pos h]

/-- The build path of `getBasicBlockTraceBufferId` as an explicit composition
of the primitive operations, in source order. -/
theorem getBasicBlockTraceBufferId_build (st : PassState)
    (h0 : st.basicBlockTraceBufferId = 0) :
    ∃ tid st1 ptid st2,
      getTypeInstruction st (traceStructKey st.traceWithU64) = (tid, st1) ∧
      findPointerToType
        (addMemberDecoration (addDecoration st1 tid decorationBlock) tid 0
          decorationOffset 0) tid storageClassStorageBuffer = (ptid, st2) ∧
      getBasicBlockTraceBufferId st =
        (st2.nextId,
         { appendInterfaceVar
             (maybeAddInt64Caps
               (addStorageBufferExt
                 (addDecorationVal
                   (addDecorationVal
                     (addDebug2Inst
                       (addDebug2Inst
                         (addDebug2Inst
                           (addGlobalValue { st2 with nextId := st2.nextId + 1 }
                             (mkTraceBufferVar ptid st2.nextId))
                           (mkOpName tid "BasicBlockTraceBuffer"))
                         (mkOpMemberName tid 0 "counters"))
                       (mkOpName st2.nextId "basic_block_trace_buffer"))
                     st2.nextId decorationDescriptorSet kTraceBufferDescriptorSet)
                   st2.nextId decorationBinding kTraceBufferBinding)))
             st2.nextId
           with basicBlockTraceBufferId := st2.nextId }) := by
  rcases hT : getTypeInstruction st (traceStructKey st.traceWithU64) with ⟨tid, st1⟩
  rcases hP : findPointerToType
      (addMemberDecoration (addDecoration st1 tid decorationBlock) tid 0
        decorationOffset 0) tid storageClassStorageBuffer with ⟨ptid, st2⟩
  refine ⟨tid, st1, ptid, st2, rfl, hP, ?_⟩
  unfold getBasicBlockTraceBufferId
  rw [if_neg (by simp [h0])]
  simp only [hT, hP, takeNextId]

/-- What the extension step never touches, and its extensions formula. -/
theorem addStorageBufferExt_shell (st : PassState) :
    ModuleShell st.module (addStorageBufferExt st).module ∧
    (addStorageBufferExt st).module.capabilities = st.module.capabilities ∧
    (addStorageBufferExt st).module.entryPoints = st.module.entryPoints ∧
    StateShell st (addStorageBufferExt st) ∧
    (addStorageBufferExt st).int64CapsDefined = st.int64CapsDefined := by
  unfold addStorageBufferExt
  split_ifs <;>
    exact ⟨⟨rfl, rfl, rfl, rfl, rfl⟩, rfl, rfl,
      ⟨rfl, rfl, rfl, rfl, rfl, ⟨rfl, rfl, rfl, rfl, rfl, rfl⟩⟩, rfl⟩

theorem addStorageBufferExt_ext (st : PassState)
    (h : st.storageBufferExtDefined = false) :
    (addStorageBufferExt st).module.extensions =
      addExtIfAbsent st.module.extensions kStorageBufferExtName := by
  unfold addStorageBufferExt
  rw [if_neg (by simp [h])]

/-- What the width-conditional capability step never touches, and its
capabilities formula. -/
theorem maybeAddInt64Caps_shell (st : PassState) :
    ModuleShell st.module (maybeAddInt64Caps st).module ∧
    (maybeAddInt64Caps st).module.extensions = st.module.extensions ∧
    (maybeAddInt64Caps st).module.entryPoints = st.module.entryPoints ∧
    StateShell st (maybeAddInt64Caps st) ∧
    (maybeAddInt64Caps st).storageBufferExtDefined =
      st.storageBufferExtDefined := by
  unfold maybeAddInt64Caps addInt64Caps
  split_ifs <;>
    exact ⟨⟨rfl, rfl, rfl, rfl, rfl⟩, rfl, rfl,
      ⟨rfl, rfl, rfl, rfl, rfl, ⟨rfl, rfl, rfl, rfl, rfl, rfl⟩⟩, rfl⟩

theorem maybeAddInt64Caps_caps (st : PassState)
    (h : st.int64CapsDefined = false) :
    (maybeAddInt64Caps st).module.capabilities =
      (if st.traceWithU64 then
        addCapIfAbsent (addCapIfAbsent st.module.capabilities capabilityInt64)
          capabilityInt64Atomics
       else st.module.capabilities) := by
  unfold maybeAddInt64Caps addInt64Caps
  split_ifs with h1 h2 <;> first | rfl | exact absurd h2 (by simp [h])

/-- What the version-gated interface step never touches, and its entry-point
formula. -/
theorem appendInterfaceVar_shell (st : PassState) (bufId : Nat) :
    ModuleShell st.module (appendInterfaceVar st bufId).module ∧
    (appendInterfaceVar st bufId).module.extensions = st.module.extensions ∧
    (appendInterfaceVar st bufId).module.capabilities =
      st.module.capabilities ∧
    StateShell st (appendInterfaceVar st bufId) ∧
    (appendInterfaceVar st bufId).storageBufferExtDefined =
      st.storageBufferExtDefined ∧
    (appendInterfaceVar st bufId).int64CapsDefined = st.int64CapsDefined := by
  unfold appendInterfaceVar
  split_ifs <;>
    exact ⟨⟨rfl, rfl, rfl, rfl, rfl⟩, rfl, rfl,
      ⟨rfl, rfl, rfl, rfl, rfl, ⟨rfl, rfl, rfl, rfl, rfl, rfl⟩⟩, rfl, rfl⟩

theorem appendInterfaceVar_eps (st : PassState) (bufId : Nat) :
    (appendInterfaceVar st bufId).module.entryPoints =
      (if st.module.version ≥ spirvVersionWord 1 4 then
        st.module.entryPoints.map (fun e =>
          { e with operands := e.operands ++ [⟨.Id, .words [bufId]⟩] })
       else st.module.entryPoints) := by
  unfold appendInterfaceVar
  split_ifs <;> rfl

theorem getTypeInstruction_wf (st : PassState) (k : TypeKey)
    (h : StateWf st) :
    StateWf (getTypeInstruction st k).2 ∧ 0 < (getTypeInstruction st k).1 := by
  obtain ⟨-, -, -, -, -, -, -, hself, -, hnext, hnew⟩ :=
    getTypeInstruction_spec st k
  refine ⟨⟨lt_of_lt_of_le h.1 hnext, ?_⟩, ?_⟩
  · intro p hp
    rcases hnew p hp with hp' | hp'
    · exact h.2 p hp'
    · rw [hp']; exact h.1
  · have hmem := tlookup_mem hself
    rcases hnew _ hmem with hp' | hp'
    · exact h.2 _ hp'
    · have hx : (getTypeInstruction st k).1 = st.nextId := hp'
      rw [hx]; exact h.1

/-- Everything the first (building) call of
`getPtrStorageBufferRuntimeArrayTypeId` guarantees. -/
theorem getPtrStorageBufferRuntimeArrayTypeId_spec (st : PassState)
    (ptrId : Nat) (st' : PassState)
    (h0 : st.ptrStorageBufferRuntimeArrayTypeId = 0)
    (heq : getPtrStorageBufferRuntimeArrayTypeId st = (ptrId, st')) :
    st'.ptrStorageBufferRuntimeArrayTypeId = ptrId ∧
    st'.module = st.module ∧
    st'.consts = st.consts ∧
    ObsFrame st st' ∧
    st'.basicBlockTraceBufferId = st.basicBlockTraceBufferId ∧
    st'.storageBufferExtDefined = st.storageBufferExtDefined ∧
    st'.int64CapsDefined = st.int64CapsDefined ∧
    TSub st.types st'.types ∧
    st.nextId ≤ st'.nextId ∧
    (∃ uid, tlookup st'.types (.uint (if st.traceWithU64 then 64 else 32)) =
        some uid ∧
      tlookup st'.types (.ptr uid storageClassStorageBuffer) = some ptrId) ∧
    (StateWf st → 0 < ptrId) := by
  unfold getPtrStorageBufferRuntimeArrayTypeId at heq
  rw [if_neg (by simp [h0])] at heq
  by_cases hu : st.traceWithU64
  · rw [if_pos hu] at heq
    rcases hU : getTypeInstruction st (.uint 64) with ⟨uid, stU⟩
    simp only [hU] at heq
    rcases hPt : getTypeInstruction stU (.ptr uid storageClassStorageBuffer)
      with ⟨rid, stP⟩
    unfold findPointerToType at heq
    simp only [hPt] at heq
    injection heq with h1 h2
    subst h1
    subst h2
    have SU := getTypeInstruction_spec st (.uint 64)
    rw [hU] at SU
    simp only at SU
    obtain ⟨uM, uC, uO, uB, uP, uE, uI, uL, uT, uN, -⟩ := SU
    have SP := getTypeInstruction_spec stU (.ptr uid storageClassStorageBuffer)
    rw [hPt] at SP
    simp only at SP
    obtain ⟨pM, pC, pO, pB, pP, pE, pI, pL, pT, pN, -⟩ := SP
    have WU := getTypeInstruction_wf st (.uint 64)
    rw [hU] at WU
    simp only at WU
    have WP := getTypeInstruction_wf stU (.ptr uid storageClassStorageBuffer)
    rw [hPt] at WP
    simp only at WP
    refine ⟨rfl, pM.trans uM, pC.trans uC, ?_, pB.trans uB,
      pE.trans uE, pI.trans uI, (uT.sub_trans pT : TSub st.types stP.types),
      uN.trans pN, ⟨uid, ?_, pL⟩, fun hwf => (WP (WU hwf).1).2⟩
    · exact uO.obs_trans (pO.obs_trans ⟨rfl, rfl, rfl, rfl, rfl, rfl⟩)
    · simp only [hu, if_pos]
      exact pT _ _ uL
  · rw [if_neg hu] at heq
    rcases hU : getTypeInstruction st (.uint 32) with ⟨uid, stU⟩
    simp only [hU] at heq
    rcases hPt : getTypeInstruction stU (.ptr uid storageClassStorageBuffer)
      with ⟨rid, stP⟩
    unfold findPointerToType at heq
    simp only [hPt] at heq
    injection heq with h1 h2
    subst h1
    subst h2
    have SU := getTypeInstruction_spec st (.uint 32)
    rw [hU] at SU
    simp only at SU
    obtain ⟨uM, uC, uO, uB, uP, uE, uI, uL, uT, uN, -⟩ := SU
    have SP := getTypeInstruction_spec stU (.ptr uid storageClassStorageBuffer)
    rw [hPt] at SP
    simp only at SP
    obtain ⟨pM, pC, pO, pB, pP, pE, pI, pL, pT, pN, -⟩ := SP
    have WU := getTypeInstruction_wf st (.uint 32)
    rw [hU] at WU
    simp only at WU
    have WP := getTypeInstruction_wf stU (.ptr uid storageClassStorageBuffer)
    rw [hPt] at WP
    simp only at WP
    refine ⟨rfl, pM.trans uM, pC.trans uC, ?_, pB.trans uB,
      pE.trans uE, pI.trans uI, (uT.sub_trans pT : TSub st.types stP.types),
      uN.trans pN, ⟨uid, ?_, pL⟩, fun hwf => (WP (WU hwf).1).2⟩
    · exact uO.obs_trans (pO.obs_trans ⟨rfl, rfl, rfl, rfl, rfl, rfl⟩)
    · simp only [hu, if_neg]
      exact pT _ _ uL

set_option maxHeartbeats 2000000 in
/-- Everything the first (building) call of `getBasicBlockTraceBufferId`
guarantees, for a fresh pass instance. -/
theorem getBasicBlockTraceBufferId_spec (st : PassState) (bufId : Nat)
    (st' : PassState)
    (h0 : st.basicBlockTraceBufferId = 0)
    (hsb : st.storageBufferExtDefined = false)
    (hic : st.int64CapsDefined = false)
    (heq : getBasicBlockTraceBufferId st = (bufId, st')) :
    st'.basicBlockTraceBufferId = bufId ∧
    st.nextId ≤ bufId ∧
    bufId < st'.nextId ∧
    ObsFrame st st' ∧
    st'.ptrStorageBufferRuntimeArrayTypeId =
      st.ptrStorageBufferRuntimeArrayTypeId ∧
    st'.consts = st.consts ∧
    TSub st.types st'.types ∧
    (∃ tid, tlookup st'.types (traceStructKey st.traceWithU64) = some tid ∧
      (∃ ptid, tlookup st'.types (.ptr tid storageClassStorageBuffer) = some ptid ∧
        mkTraceBufferVar ptid bufId ∈ st'.module.globals) ∧
      Decoration.deco tid decorationBlock ∈ st'.module.decorations ∧
      Decoration.memberDeco tid 0 decorationOffset 0 ∈ st'.module.decorations) ∧
    mkOpName bufId "basic_block_trace_buffer" ∈ st'.module.debugInsts ∧
    Decoration.decoVal bufId decorationDescriptorSet kTraceBufferDescriptorSet
      ∈ st'.module.decorations ∧
    Decoration.decoVal bufId decorationBinding kTraceBufferBinding
      ∈ st'.module.decorations ∧
    st'.module.extensions =
      addExtIfAbsent st.module.extensions kStorageBufferExtName ∧
    st'.module.capabilities =
      (if st.traceWithU64 then
        addCapIfAbsent (addCapIfAbsent st.module.capabilities capabilityInt64)
          capabilityInt64Atomics
       else st.module.capabilities) ∧
    st'.module.entryPoints =
      (if st.module.version ≥ spirvVersionWord 1 4 then
        st.module.entryPoints.map (fun e =>
          { e with operands := e.operands ++ [⟨.Id, .words [bufId]⟩] })
       else st.module.entryPoints) ∧
    st'.module.version = st.module.version ∧
    st'.module.reachableFunctions = st.module.reachableFunctions := by
  obtain ⟨tid, st1, ptid, st2, hT, hP, hEq⟩ :=
    getBasicBlockTraceBufferId_build st h0
  rw [heq] at hEq
  injection hEq with hbuf hst'
  subst hbuf
  have S1 := getTypeInstruction_spec st (traceStructKey st.traceWithU64)
  rw [hT] at S1
  simp only at S1
  obtain ⟨M1, C1, O1, B1, P1, E1, I1, L1, T1, N1, -⟩ := S1
  unfold findPointerToType at hP
  have S2 := getTypeInstruction_spec
    (addMemberDecoration (addDecoration st1 tid decorationBlock) tid 0
      decorationOffset 0) (.ptr tid storageClassStorageBuffer)
  rw [hP] at S2
  simp only at S2
  obtain ⟨M2r, C2r, O2r, B2r, P2r, E2r, I2r, L2, T2r, N2r, -⟩ := S2
  -- defeq recasts of the second-step facts onto st1
  have M2 : st2.module =
      { st1.module with decorations := st1.module.decorations
          ++ [Decoration.deco tid decorationBlock]
          ++ [Decoration.memberDeco tid 0 decorationOffset 0] } := M2r
  have C2 : st2.consts = st1.consts := C2r
  have O2 : ObsFrame st1 st2 :=
    ⟨O2r.countLog, O2r.mapLog, O2r.origLabel, O2r.u64flag, O2r.hasCount,
     O2r.hasMap⟩
  have P2 : st2.ptrStorageBufferRuntimeArrayTypeId =
      st1.ptrStorageBufferRuntimeArrayTypeId := P2r
  have E2 : st2.storageBufferExtDefined = st1.storageBufferExtDefined := E2r
  have I2 : st2.int64CapsDefined = st1.int64CapsDefined := I2r
  have T2 : TSub st1.types st2.types := T2r
  have N2 : st1.nextId ≤ st2.nextId := N2r
  -- st2.module fields, pushed down to the input module
  have Mext : st2.module.extensions = st.module.extensions := by rw [M2, M1]
  have Mcaps : st2.module.capabilities = st.module.capabilities := by
    rw [M2, M1]
  have Meps : st2.module.entryPoints = st.module.entryPoints := by rw [M2, M1]
  have Mver : st2.module.version = st.module.version := by rw [M2, M1]
  have Mrf : st2.module.reachableFunctions = st.module.reachableFunctions := by
    rw [M2, M1]
  have Mglob : st2.module.globals = st.module.globals := by rw [M2, M1]
  have Mdbg : st2.module.debugInsts = st.module.debugInsts := by rw [M2, M1]
  have Mdeco : st2.module.decorations = st.module.decorations
      ++ [Decoration.deco tid decorationBlock]
      ++ [Decoration.memberDeco tid 0 decorationOffset 0] := by rw [M2, M1]
  -- name the pre-extension chain
  set F : PassState := addDecorationVal
      (addDecorationVal
        (addDebug2Inst
          (addDebug2Inst
            (addDebug2Inst
              (addGlobalValue { st2 with nextId := st2.nextId + 1 }
                (mkTraceBufferVar ptid st2.nextId))
              (mkOpName tid "BasicBlockTraceBuffer"))
            (mkOpMemberName tid 0 "counters"))
          (mkOpName st2.nextId "basic_block_trace_buffer"))
        st2.nextId decorationDescriptorSet kTraceBufferDescriptorSet)
      st2.nextId decorationBinding kTraceBufferBinding with hF
  -- facts about the chain
  have Fsb : F.storageBufferExtDefined = false := by
    rw [hF]; exact E2.trans (E1.trans hsb)
  have Fic2 : F.int64CapsDefined = false := by
    rw [hF]; exact I2.trans (I1.trans hic)
  have Fu64 : F.traceWithU64 = st.traceWithU64 := by
    rw [hF]; exact O2.u64flag.trans O1.u64flag
  have Fnext : F.nextId = st2.nextId + 1 := by rw [hF]; rfl
  have Ftypes : F.types = st2.types := by rw [hF]; rfl
  have Fconsts : F.consts = st2.consts := by rw [hF]; rfl
  have Fptr : F.ptrStorageBufferRuntimeArrayTypeId =
      st2.ptrStorageBufferRuntimeArrayTypeId := by rw [hF]; rfl
  have Fobs : ObsFrame st2 F := by
    rw [hF]; exact ⟨rfl, rfl, rfl, rfl, rfl, rfl⟩
  have Fext : F.module.extensions = st.module.extensions := by
    rw [hF]; exact Mext
  have Fcaps : F.module.capabilities = st.module.capabilities := by
    rw [hF]; exact Mcaps
  have Fver : F.module.version = st.module.version := by
    rw [hF]; exact Mver
  have Frf : F.module.reachableFunctions = st.module.reachableFunctions := by
    rw [hF]; exact Mrf
  have Feps : F.module.entryPoints = st.module.entryPoints := by
    rw [hF]; exact Meps
  have Fglob : F.module.globals =
      st2.module.globals ++ [mkTraceBufferVar ptid st2.nextId] := by
    rw [hF]; rfl
  have Fdbg : F.module.debugInsts = st2.module.debugInsts
      ++ [mkOpName tid "BasicBlockTraceBuffer"]
      ++ [mkOpMemberName tid 0 "counters"]
      ++ [mkOpName st2.nextId "basic_block_trace_buffer"] := by rw [hF]; rfl
  have Fdeco : F.module.decorations = st2.module.decorations
      ++ [Decoration.decoVal st2.nextId decorationDescriptorSet
            kTraceBufferDescriptorSet]
      ++ [Decoration.decoVal st2.nextId decorationBinding
            kTraceBufferBinding] := by rw [hF]; rfl
  -- the three tail steps
  obtain ⟨GM, Gcaps, Geps, GS, GI⟩ := addStorageBufferExt_shell F
  have Gext := addStorageBufferExt_ext F Fsb
  obtain ⟨HM, Hext, Heps, HS, Hsb2⟩ :=
    maybeAddInt64Caps_shell (addStorageBufferExt F)
  have Hcaps := maybeAddInt64Caps_caps (addStorageBufferExt F)
    (GI.trans Fic2)
  obtain ⟨IM, Iext, Icaps, IS, Isb, Iic⟩ :=
    appendInterfaceVar_shell (maybeAddInt64Caps (addStorageBufferExt F))
      st2.nextId
  have Ieps := appendInterfaceVar_eps (maybeAddInt64Caps (addStorageBufferExt F))
    st2.nextId
  subst hst'
  refine ⟨rfl, N1.trans N2, ?_, ?_, ?_, ?_, ?_, ?_, ?_, ?_, ?_, ?_, ?_, ?_, ?_, ?_⟩
  · -- nextId strictly grows past the buffer id
    show st2.nextId <
      (appendInterfaceVar (maybeAddInt64Caps (addStorageBufferExt F))
        st2.nextId).nextId
    rw [IS.nextId, HS.nextId, GS.nextId, Fnext]
    exact Nat.lt_succ_self _
  · -- observer frame
    exact (O1.obs_trans (O2.obs_trans (Fobs.obs_trans (GS.obs.obs_trans (HS.obs.obs_trans
      (IS.obs.obs_trans ⟨rfl, rfl, rfl, rfl, rfl, rfl⟩))))))
  · -- pointer-type memo untouched
    show (appendInterfaceVar (maybeAddInt64Caps (addStorageBufferExt F))
        st2.nextId).ptrStorageBufferRuntimeArrayTypeId = _
    rw [IS.ptrId, HS.ptrId, GS.ptrId, Fptr, P2, P1]
  · -- constants untouched
    show (appendInterfaceVar (maybeAddInt64Caps (addStorageBufferExt F))
        st2.nextId).consts = _
    rw [IS.consts, HS.consts, GS.consts, Fconsts, C2, C1]
  · -- type table extends
    show TSub st.types (appendInterfaceVar (maybeAddInt64Caps
      (addStorageBufferExt F)) st2.nextId).types
    rw [IS.types, HS.types, GS.types, Ftypes]
    exact T1.sub_trans T2
  · -- the registered struct and pointer types, and the new global
    refine ⟨tid, ?_, ⟨ptid, ?_, ?_⟩, ?_, ?_⟩
    · show tlookup (appendInterfaceVar (maybeAddInt64Caps
        (addStorageBufferExt F)) st2.nextId).types _ = _
      rw [IS.types, HS.types, GS.types, Ftypes]
      exact T2 _ _ L1
    · show tlookup (appendInterfaceVar (maybeAddInt64Caps
        (addStorageBufferExt F)) st2.nextId).types _ = _
      rw [IS.types, HS.types, GS.types, Ftypes]
      exact L2
    · show mkTraceBufferVar ptid st2.nextId ∈
        (appendInterfaceVar (maybeAddInt64Caps (addStorageBufferExt F))
          st2.nextId).module.globals
      rw [IM.globals, HM.globals, GM.globals, Fglob]
      simp
    · show Decoration.deco tid decorationBlock ∈
        (appendInterfaceVar (maybeAddInt64Caps (addStorageBufferExt F))
          st2.nextId).module.decorations
      rw [IM.decorations, HM.decorations, GM.decorations, Fdeco, Mdeco]
      simp
    · show Decoration.memberDeco tid 0 decorationOffset 0 ∈
        (appendInterfaceVar (maybeAddInt64Caps (addStorageBufferExt F))
          st2.nextId).module.decorations
      rw [IM.decorations, HM.decorations, GM.decorations, Fdeco, Mdeco]
      simp
  · -- debug name for the buffer variable
    show mkOpName st2.nextId "basic_block_trace_buffer" ∈
      (appendInterfaceVar (maybeAddInt64Caps (addStorageBufferExt F))
        st2.nextId).module.debugInsts
    rw [IM.debugInsts, HM.debugInsts, GM.debugInsts, Fdbg]
    simp
  · -- descriptor-set decoration
    show Decoration.decoVal st2.nextId decorationDescriptorSet
        kTraceBufferDescriptorSet ∈
      (appendInterfaceVar (maybeAddInt64Caps (addStorageBufferExt F))
        st2.nextId).module.decorations
    rw [IM.decorations, HM.decorations, GM.decorations, Fdeco]
    simp
  · -- binding decoration
    show Decoration.decoVal st2.nextId decorationBinding kTraceBufferBinding ∈
      (appendInterfaceVar (maybeAddInt64Caps (addStorageBufferExt F))
        st2.nextId).module.decorations
    rw [IM.decorations, HM.decorations, GM.decorations, Fdeco]
    simp
  · -- extensions formula
    show (appendInterfaceVar (maybeAddInt64Caps (addStorageBufferExt F))
        st2.nextId).module.extensions = _
    rw [Iext, Hext, Gext, Fext]
  · -- capabilities formula
    show (appendInterfaceVar (maybeAddInt64Caps (addStorageBufferExt F))
        st2.nextId).module.capabilities = _
    rw [Icaps, Hcaps, GS.obs.u64flag, Gcaps, Fu64, Fcaps]
  · -- entry-point formula
    show (appendInterfaceVar (maybeAddInt64Caps (addStorageBufferExt F))
        st2.nextId).module.entryPoints = _
    rw [Ieps, HM.version, GM.version, Fver, Heps, Geps, Feps]
  · -- version untouched
    show (appendInterfaceVar (maybeAddInt64Caps (addStorageBufferExt F))
        st2.nextId).module.version = _
    rw [IM.version, HM.version, GM.version, Fver]
  · -- reachable functions untouched
    show (appendInterfaceVar (maybeAddInt64Caps (addStorageBufferExt F))
        st2.nextId).module.reachableFunctions = _
    rw [IM.reachableFunctions, HM.reachableFunctions, GM.reachableFunctions,
      Frf]

theorem BlockFrame.block_refl (st : PassState) : BlockFrame st st :=
  ⟨rfl, rfl, rfl, rfl, rfl, rfl, rfl, rfl, rfl, rfl, rfl, rfl, TSub.sub_refl⟩

theorem BlockFrame.block_trans {s1 s2 s3 : PassState}
    (h1 : BlockFrame s1 s2) (h2 : BlockFrame s2 s3) : BlockFrame s1 s3 :=
  ⟨h2.module.trans h1.module, h2.origLabel.trans h1.origLabel,
   h2.types.trans h1.types, h2.u64flag.trans h1.u64flag,
   h2.countLog.trans h1.countLog, h2.mapLog.trans h1.mapLog,
   h2.hasCount.trans h1.hasCount, h2.hasMap.trans h1.hasMap,
   h2.bufferId.trans h1.bufferId, h2.ptrId.trans h1.ptrId,
   h2.extDefined.trans h1.extDefined, h2.capsDefined.trans h1.capsDefined,
   h1.consts.sub_trans h2.consts⟩

theorem BlockShape.mono {p : FnParams} {u64 : Bool}
    {idxMap : List (Nat × Nat)} {c c' : List (ConstKey × Nat)}
    {bb bb' : BasicBlock} (hsub : TSub c c')
    (h : BlockShape p u64 idxMap c bb bb') :
    BlockShape p u64 idxMap c' bb bb' := by
  obtain ⟨t, cid, nPtr, h1, h2, h3, h4⟩ := h
  exact ⟨t, cid, nPtr, h1, hsub _ _ h2, h3, h4⟩

/-- The declaration-only `continue`: nothing inserted, state untouched,
`changed` not set. -/
theorem processOneBlock_decl (p : FnParams) (st : PassState) (bb : BasicBlock)
    (h1 : bb.body ≠ [])
    (h2 : bb.body.dropWhile isVariable = []) :
    processOneBlock p st bb = .ok (st, bb, false) := by
  unfold processOneBlock
  rw [if_neg (by simp [h1]), if_pos (by simp [h2])]

/-- The instrumentation path of the per-block step, as an explicit
composition. -/
theorem processOneBlock_instr (p : FnParams) (st : PassState)
    (bb : BasicBlock) (t : Nat)
    (h2 : bb.body.dropWhile isVariable ≠ [])
    (hidx : alookup st.origLabelToTraceIdx bb.id = some t) :
    ∃ cid st1,
      getUIntConstId st t = (cid, st1) ∧
      processOneBlock p st bb = .ok
        ({ st1 with nextId := st1.nextId + 1 + 1 },
         { bb with body := bb.body.takeWhile isVariable
             ++ [mkAccessChain p.ptrStorageBufferUintOrUlong st1.nextId
                   p.bbTraceBufferId p.uintConstZeroId cid,
                 mkAtomicAdd (if st.traceWithU64 then p.tyUlong else p.tyUint)
                   (st1.nextId + 1) st1.nextId p.uintConstOneId
                   p.uintConstZeroId
                   (if st.traceWithU64 then p.ulongConstOneId
                    else p.uintConstOneId)]
             ++ bb.body.dropWhile isVariable },
         true) := by
  have h1 : bb.body ≠ [] := by
    intro h
    exact h2 (by simp [h])
  rcases hC : getConstId st (.uintConst 32 t) with ⟨cid, st1⟩
  have hu : st1.traceWithU64 = st.traceWithU64 := by
    have := (getConstId_spec st (.uintConst 32 t)).2.2.1.u64flag
    rw [hC] at this
    exact this
  refine ⟨cid, st1, hC, ?_⟩
  unfold processOneBlock getUIntConstId
  rw [if_neg (by simp [h1]), if_neg (by simp [h2])]
  simp only [hidx]
  simp only [hC, takeNextId]
  by_cases hw : st.traceWithU64 <;> simp [hw, hu]

/-- Case summary of the per-block step: the frame, the value of `changed`,
identity on skipped blocks, and the inserted shape on instrumented blocks. -/
theorem processOneBlock_spec (p : FnParams) (st : PassState) (bb : BasicBlock)
    (st' : PassState) (bb' : BasicBlock) (ch : Bool)
    (h : processOneBlock p st bb = .ok (st', bb', ch)) :
    BlockFrame st st' ∧ ch = instrumentable bb ∧
    (ch = false → st' = st ∧ bb' = bb) ∧
    (ch = true →
      BlockShape p st.traceWithU64 st.origLabelToTraceIdx st'.consts bb bb') := by
  by_cases h1 : bb.body = []
  · unfold processOneBlock at h
    rw [if_pos (by simp [h1])] at h
    simp at h
  · by_cases h2 : bb.body.dropWhile isVariable = []
    · rw [processOneBlock_decl p st bb h1 h2] at h
      simp only [Except.ok.injEq, Prod.mk.injEq] at h
      obtain ⟨hst, hbb, hch⟩ := h
      subst hst; subst hbb; subst hch
      refine ⟨BlockFrame.block_refl st, ?_, fun _ => ⟨rfl, rfl⟩, fun hc => by simp at hc⟩
      simp [instrumentable, h2]
    · cases halook : alookup st.origLabelToTraceIdx bb.id with
      | none =>
          unfold processOneBlock at h
          rw [if_neg (by simp [h1]), if_neg (by simp [h2])] at h
          simp only [halook] at h
          simp at h
      | some t =>
          obtain ⟨cid, st1, hC, hEq⟩ := processOneBlock_instr p st bb t h2 halook
          rw [hEq] at h
          simp only [Except.ok.injEq, Prod.mk.injEq] at h
          obtain ⟨hst, hbb, hch⟩ := h
          subst hst; subst hbb; subst hch
          have SC := getConstId_spec st (.uintConst 32 t)
          have hC' : getConstId st (.uintConst 32 t) = (cid, st1) := hC
          rw [hC'] at SC
          simp only at SC
          obtain ⟨cM, cT, cO, cB, cP, cE, cI, cL, cSub, cN⟩ := SC
          refine ⟨⟨cM, cO.origLabel, cT, cO.u64flag, cO.countLog, cO.mapLog,
            cO.hasCount, cO.hasMap, cB, cP, cE, cI, cSub⟩, ?_,
            fun hc => by simp at hc, fun _ => ?_⟩
          · simp [instrumentable, h2]
          · exact ⟨t, cid, st1.nextId, halook, cL, rfl, rfl⟩

/-- The block loop: frame, the `changed` formula, and the element-wise
relation between input and output blocks. -/
theorem processBlocks_spec (p : FnParams) (st : PassState) (ch0 : Bool)
    (bs : List BasicBlock) (st' : PassState) (bs' : List BasicBlock)
    (ch' : Bool)
    (h : processBlocks p st ch0 bs = .ok (st', bs', ch')) :
    BlockFrame st st' ∧
    ch' = (ch0 || bs.any instrumentable) ∧
    bs'.length = bs.length ∧
    ∀ i (hi : i < bs.length) (hi' : i < bs'.length),
      (instrumentable (bs.get ⟨i, hi⟩) = false →
        bs'.get ⟨i, hi'⟩ = bs.get ⟨i, hi⟩) ∧
      (instrumentable (bs.get ⟨i, hi⟩) = true →
        BlockShape p st.traceWithU64 st.origLabelToTraceIdx st'.consts
          (bs.get ⟨i, hi⟩) (bs'.get ⟨i, hi'⟩)) := by
  induction bs generalizing st ch0 st' bs' ch' with
  | nil =>
      unfold processBlocks at h
      simp only [Except.ok.injEq, Prod.mk.injEq] at h
      obtain ⟨hst, hbs, hch⟩ := h
      subst hst; subst hbs; subst hch
      exact ⟨BlockFrame.block_refl st, by simp, rfl, fun i hi hi' => by simp at hi⟩
  | cons bb rest ih =>
      unfold processBlocks at h
      cases h1 : processOneBlock p st bb with
      | error e => rw [h1] at h; simp at h
      | ok out =>
          obtain ⟨s1, bb1, c1⟩ := out
          rw [h1] at h
          simp only [] at h
          cases h2 : processBlocks p s1 (ch0 || c1) rest with
          | error e => rw [h2] at h; simp at h
          | ok out2 =>
              obtain ⟨s2, rest2, c2⟩ := out2
              rw [h2] at h
              simp only [Except.ok.injEq, Prod.mk.injEq] at h
              obtain ⟨hst, hbs, hch⟩ := h
              subst hst; subst hbs; subst hch
              obtain ⟨F1, hc1, hid1, hsh1⟩ :=
                processOneBlock_spec p st bb s1 bb1 c1 h1
              obtain ⟨F2, hc2, hlen2, helem2⟩ :=
                ih s1 (ch0 || c1) s2 rest2 c2 h2
              refine ⟨F1.block_trans F2, ?_, ?_, ?_⟩
              · rw [hc2, hc1]
                simp [Bool.or_assoc]
              · simp [hlen2]
              · intro i hi hi'
                cases i with
                | zero =>
                    constructor
                    · intro hni
                      have hninst : c1 = false := by
                        rw [hc1]
                        simpa using hni
                      have := (hid1 hninst).2
                      simpa using this
                    · intro hins
                      have hinst : c1 = true := by
                        rw [hc1]
                        simpa using hins
                      have hsh := hsh1 hinst
                      exact (hsh.mono F2.consts :
                        BlockShape p st.traceWithU64 st.origLabelToTraceIdx
                          s2.consts bb bb1)
                | succ j =>
                    have hj : j < rest.length := by simpa using hi
                    have hj' : j < rest2.length := by simpa using hi'
                    have helem := helem2 j hj hj'
                    rw [F1.u64flag, F1.origLabel] at helem
                    exact helem
theorem FuncFrame.func_trans {s1 s2 s3 : PassState}
    (h1 : FuncFrame s1 s2) (h2 : FuncFrame s2 s3) : FuncFrame s1 s3 :=
  ⟨h2.module.trans h1.module, h2.origLabel.trans h1.origLabel,
   h2.u64flag.trans h1.u64flag, h2.countLog.trans h1.countLog,
   h2.mapLog.trans h1.mapLog, h2.hasCount.trans h1.hasCount,
   h2.hasMap.trans h1.hasMap, h2.bufferId.trans h1.bufferId,
   h2.ptrId.trans h1.ptrId, h2.extDefined.trans h1.extDefined,
   h2.capsDefined.trans h1.capsDefined, h1.types.sub_trans h2.types,
   h1.consts.sub_trans h2.consts⟩

theorem BlockFrame.toFuncFrame {s1 s2 : PassState} (h : BlockFrame s1 s2) :
    FuncFrame s1 s2 :=
  ⟨h.module, h.origLabel, h.u64flag, h.countLog, h.mapLog, h.hasCount,
   h.hasMap, h.bufferId, h.ptrId, h.extDefined, h.capsDefined,
   h.types ▸ TSub.sub_refl, h.consts⟩

/-- Everything one run of the instrumentation lambda on a function
guarantees: the frame, the `changed` value, and the element-wise relation
between the input and output block lists, with the preamble's ids resolved
in the final tables. -/
theorem processFunction_spec (bufId ptrId : Nat) (st : PassState)
    (f : Function) (st' : PassState) (f' : Function) (ch : Bool)
    (h : processFunction bufId ptrId st f = .ok (st', f', ch)) :
    FuncFrame st st' ∧
    ch = f.blocks.any instrumentable ∧
    f'.blocks.length = f.blocks.length ∧
    ∃ p : FnParams,
      p.bbTraceBufferId = bufId ∧
      p.ptrStorageBufferUintOrUlong = ptrId ∧
      tlookup st'.consts (.uintConst 32 0) = some p.uintConstZeroId ∧
      tlookup st'.consts (.uintConst 32 1) = some p.uintConstOneId ∧
      tlookup st'.types (.uint 32) = some p.tyUint ∧
      (st.traceWithU64 = true →
        tlookup st'.types (.uint 64) = some p.tyUlong ∧
        tlookup st'.consts (.uintConst 64 1) = some p.ulongConstOneId) ∧
      ∀ i (hi : i < f.blocks.length) (hi' : i < f'.blocks.length),
        (instrumentable (f.blocks.get ⟨i, hi⟩) = false →
          f'.blocks.get ⟨i, hi'⟩ = f.blocks.get ⟨i, hi⟩) ∧
        (instrumentable (f.blocks.get ⟨i, hi⟩) = true →
          BlockShape p st.traceWithU64 st.origLabelToTraceIdx st'.consts
            (f.blocks.get ⟨i, hi⟩) (f'.blocks.get ⟨i, hi'⟩)) := by
  unfold processFunction getUIntConstId at h
  rcases hZ : getConstId st (.uintConst 32 0) with ⟨zid, s1⟩
  simp only [hZ] at h
  have SZ := getConstId_spec st (.uintConst 32 0)
  rw [hZ] at SZ
  simp only at SZ
  obtain ⟨zM, zT, zO, zB, zP, zE, zI, zL, zSub, zN⟩ := SZ
  rcases hO : getConstId s1 (.uintConst 32 1) with ⟨oid, s2⟩
  simp only [hO] at h
  have SO := getConstId_spec s1 (.uintConst 32 1)
  rw [hO] at SO
  simp only at SO
  obtain ⟨oM, oT, oO, oB, oP, oE, oI, oL, oSub, oN⟩ := SO
  rcases hU : getTypeInstruction s2 (.uint 32) with ⟨uid, s3⟩
  simp only [hU] at h
  have SU := getTypeInstruction_spec s2 (.uint 32)
  rw [hU] at SU
  simp only at SU
  obtain ⟨uM, uC, uO, uB, uP, uE, uI, uL, uT, uN, -⟩ := SU
  have e3 : s3.traceWithU64 = st.traceWithU64 :=
    (uO.u64flag.trans oO.u64flag).trans zO.u64flag
  rw [e3] at h
  by_cases hu : st.traceWithU64
  · rw [if_pos hu] at h
    rcases hL : getTypeInstruction s3 (.uint 64) with ⟨lid, s4⟩
    simp only [hL] at h
    have SL := getTypeInstruction_spec s3 (.uint 64)
    rw [hL] at SL
    simp only at SL
    obtain ⟨lM, lC, lO, lB, lP, lE, lI, lL, lT, lN, -⟩ := SL
    have e4 : s4.traceWithU64 = st.traceWithU64 := lO.u64flag.trans e3
    rw [e4, if_pos hu] at h
    rcases hW : getConstId s4 (.uintConst 64 1) with ⟨wid, s5⟩
    simp only [hW] at h
    have SW := getConstId_spec s4 (.uintConst 64 1)
    rw [hW] at SW
    simp only at SW
    obtain ⟨wM, wT, wO, wB, wP, wE, wI, wL, wSub, wN⟩ := SW
    cases hB : processBlocks ⟨bufId, ptrId, zid, oid, uid, lid, wid⟩ s5 false
        f.blocks with
    | error e => rw [hB] at h; simp at h
    | ok out =>
        obtain ⟨sB, blocks', chB⟩ := out
        rw [hB] at h
        simp only [Except.ok.injEq, Prod.mk.injEq] at h
        obtain ⟨hst, hf, hch⟩ := h
        subst hst; subst hch; subst hf
        obtain ⟨FB, hcB, hlenB, helemB⟩ := processBlocks_spec _ _ _ _ _ _ _ hB
        have cSub15 : TSub st.consts s5.consts := by
          intro k v hk
          apply wSub
          rw [lC, uC]
          exact oSub _ _ (zSub _ _ hk)
        have tSub1B : TSub st.types sB.types := by
          intro k v hk
          rw [FB.types, wT]
          apply lT
          apply uT
          rw [oT, zT]
          exact hk
        have F05 : FuncFrame st s5 := by
          refine ⟨((wM.trans lM).trans uM).trans (oM.trans zM),
            (((wO.origLabel.trans lO.origLabel).trans uO.origLabel).trans
              oO.origLabel).trans zO.origLabel,
            wO.u64flag.trans e4,
            (((wO.countLog.trans lO.countLog).trans uO.countLog).trans
              oO.countLog).trans zO.countLog,
            (((wO.mapLog.trans lO.mapLog).trans uO.mapLog).trans
              oO.mapLog).trans zO.mapLog,
            (((wO.hasCount.trans lO.hasCount).trans uO.hasCount).trans
              oO.hasCount).trans zO.hasCount,
            (((wO.hasMap.trans lO.hasMap).trans uO.hasMap).trans
              oO.hasMap).trans zO.hasMap,
            (((wB.trans lB).trans uB).trans oB).trans zB,
            (((wP.trans lP).trans uP).trans oP).trans zP,
            (((wE.trans lE).trans uE).trans oE).trans zE,
            (((wI.trans lI).trans uI).trans oI).trans zI,
            ?_, cSub15⟩
          intro k v hk
          rw [wT]
          apply lT
          apply uT
          rw [oT, zT]
          exact hk
        have FF : FuncFrame st sB := F05.func_trans FB.toFuncFrame
        have e5tw : s5.traceWithU64 = st.traceWithU64 := wO.u64flag.trans e4
        have e5ol : s5.origLabelToTraceIdx = st.origLabelToTraceIdx :=
          F05.origLabel
        rw [e5tw, e5ol] at helemB
        refine ⟨FF, by rw [hcB]; simp, hlenB,
          ⟨bufId, ptrId, zid, oid, uid, lid, wid⟩, rfl, rfl, ?_, ?_, ?_,
          fun _ => ⟨?_, ?_⟩, helemB⟩
        · exact FB.consts _ _ (by
            apply wSub
            rw [lC, uC]
            exact oSub _ _ zL)
        · exact FB.consts _ _ (by
            apply wSub
            rw [lC, uC]
            exact oL)
        · rw [FB.types, wT]
          exact lT _ _ uL
        · rw [FB.types, wT]
          exact lL
        · exact FB.consts _ _ wL
  · rw [if_neg hu] at h
    simp only [] at h
    have e3' : s3.traceWithU64 = st.traceWithU64 := e3
    rw [e3', if_neg hu] at h
    cases hB : processBlocks ⟨bufId, ptrId, zid, oid, uid, 0, 0⟩ s3 false
        f.blocks with
    | error e => rw [hB] at h; simp at h
    | ok out =>
        obtain ⟨sB, blocks', chB⟩ := out
        rw [hB] at h
        simp only [Except.ok.injEq, Prod.mk.injEq] at h
        obtain ⟨hst, hf, hch⟩ := h
        subst hst; subst hch; subst hf
        obtain ⟨FB, hcB, hlenB, helemB⟩ := processBlocks_spec _ _ _ _ _ _ _ hB
        have F03 : FuncFrame st s3 := by
          refine ⟨uM.trans (oM.trans zM),
            (uO.origLabel.trans oO.origLabel).trans zO.origLabel,
            e3,
            (uO.countLog.trans oO.countLog).trans zO.countLog,
            (uO.mapLog.trans oO.mapLog).trans zO.mapLog,
            (uO.hasCount.trans oO.hasCount).trans zO.hasCount,
            (uO.hasMap.trans oO.hasMap).trans zO.hasMap,
            (uB.trans oB).trans zB,
            (uP.trans oP).trans zP,
            (uE.trans oE).trans zE,
            (uI.trans oI).trans zI,
            ?_, ?_⟩
          · intro k v hk
            apply uT
            rw [oT, zT]
            exact hk
          · intro k v hk
            rw [uC]
            exact oSub _ _ (zSub _ _ hk)
        have FF : FuncFrame st sB := F03.func_trans FB.toFuncFrame
        rw [F03.u64flag, F03.origLabel] at helemB
        refine ⟨FF, by rw [hcB]; simp, hlenB,
          ⟨bufId, ptrId, zid, oid, uid, 0, 0⟩, rfl, rfl, ?_, ?_, ?_,
          fun hcontra => absurd hcontra (by simp [hu]), helemB⟩
        · exact FB.consts _ _ (by
            rw [uC]
            exact oSub _ _ zL)
        · exact FB.consts _ _ (by
            rw [uC]
            exact oL)
        · rw [FB.types]
          exact uL

/-- The call-tree driver over the instrumentation lambda: frame, the
`modified` formula, and element-wise preservation of uninstrumented
blocks. -/
theorem processAllFunctions_spec (bufId ptrId : Nat) (st : PassState)
    (m0 : Bool) (fs : List Function) (st' : PassState) (fs' : List Function)
    (m' : Bool)
    (h : processAllFunctions bufId ptrId st m0 fs = .ok (st', fs', m')) :
    FuncFrame st st' ∧
    m' = (m0 || fs.any (fun f => f.blocks.any instrumentable)) ∧
    fs'.length = fs.length ∧
    ∀ j (hj : j < fs.length) (hj' : j < fs'.length),
      (fs'.get ⟨j, hj'⟩).blocks.length = (fs.get ⟨j, hj⟩).blocks.length ∧
      ∀ i (hi : i < (fs.get ⟨j, hj⟩).blocks.length)
          (hi' : i < (fs'.get ⟨j, hj'⟩).blocks.length),
        instrumentable ((fs.get ⟨j, hj⟩).blocks.get ⟨i, hi⟩) = false →
          (fs'.get ⟨j, hj'⟩).blocks.get ⟨i, hi'⟩ =
            (fs.get ⟨j, hj⟩).blocks.get ⟨i, hi⟩ := by
  induction fs generalizing st m0 st' fs' m' with
  | nil =>
      unfold processAllFunctions at h
      simp only [Except.ok.injEq, Prod.mk.injEq] at h
      obtain ⟨hst, hfs, hm⟩ := h
      subst hst; subst hfs; subst hm
      exact ⟨⟨rfl, rfl, rfl, rfl, rfl, rfl, rfl, rfl, rfl, rfl, rfl,
        TSub.sub_refl, TSub.sub_refl⟩, by simp, rfl, fun j hj hj' => by simp at hj⟩
  | cons f rest ih =>
      unfold processAllFunctions at h
      cases h1 : processFunction bufId ptrId st f with
      | error e => rw [h1] at h; simp at h
      | ok out =>
          obtain ⟨s1, f1, c1⟩ := out
          rw [h1] at h
          simp only [] at h
          cases h2 : processAllFunctions bufId ptrId s1 (c1 || m0) rest with
          | error e => rw [h2] at h; simp at h
          | ok out2 =>
              obtain ⟨s2, rest2, c2⟩ := out2
              rw [h2] at h
              simp only [Except.ok.injEq, Prod.mk.injEq] at h
              obtain ⟨hst, hfs, hm⟩ := h
              subst hst; subst hfs; subst hm
              obtain ⟨F1, hc1, hlen1, p, -, -, -, -, -, -, helem1⟩ :=
                processFunction_spec bufId ptrId st f s1 f1 c1 h1
              obtain ⟨F2, hc2, hlen2, helem2⟩ := ih s1 (c1 || m0) s2 rest2 c2 h2
              refine ⟨F1.func_trans F2, ?_, by simp [hlen2], ?_⟩
              · rw [hc2, hc1]
                cases m0 <;> simp [Bool.or_comm, Bool.or_assoc,
                  Bool.or_left_comm]
              · intro j hj hj'
                cases j with
                | zero =>
                    refine ⟨hlen1, ?_⟩
                    intro i hi hi' hni
                    exact (helem1 i hi hi').1 hni
                | succ k =>
                    have hk : k < rest.length := by simpa using hj
                    have hk' : k < rest2.length := by simpa using hj'
                    exact helem2 k hk hk'

/-- With every label id present, the indexer cannot fail. -/
theorem labelBlocksInFunc_total (acc : List (Nat × Nat) × Nat)
    (bs : List BasicBlock) (hids : ∀ bb ∈ bs, bb.id ≠ 0) :
    ∃ out, labelBlocksInFunc acc bs = .ok out := by
  induction bs generalizing acc with
  | nil => exact ⟨acc, rfl⟩
  | cons bb rest ih =>
      obtain ⟨out, hout⟩ := ih (mapAssign acc.1 bb.id acc.2, acc.2 + 1)
        (fun b hb => hids b (by simp [hb]))
      exact ⟨out, by rw [labelBlocksInFunc, if_neg (hids bb (by simp)), hout]⟩

/-- A label without a result id makes `labelBasicBlocks` fail. -/
theorem labelBasicBlocks_error (st : PassState)
    (h : ∃ bb ∈ st.module.allBlocks, bb.id = 0) :
    ∃ e, labelBasicBlocks st = .error e := by
  obtain ⟨e, he⟩ := labelBlocksInFunc_error (st.origLabelToTraceIdx, 0)
    st.module.allBlocks h
  rw [Module.allBlocks] at he
  refine ⟨e, ?_⟩
  unfold labelBasicBlocks
  rw [labelFuncs_eq_flat, he]

/-- After successful labelling, every reachable block's label is a key of the
trace index map. -/
theorem labelBasicBlocks_complete (st st' : PassState)
    (h : labelBasicBlocks st = .ok st') :
    ∀ bb ∈ st.module.allBlocks,
      (alookup st'.origLabelToTraceIdx bb.id).isSome := by
  unfold labelBasicBlocks at h
  rw [labelFuncs_eq_flat] at h
  cases hout : labelBlocksInFunc (st.origLabelToTraceIdx, 0)
      ((st.module.reachableFunctions.map Function.blocks).flatten) with
  | error e => rw [hout] at h; simp at h
  | ok out =>
      rw [hout] at h
      simp only [Except.ok.injEq] at h
      subst h
      intro bb hbb
      have := (labelBlocksInFunc_complete _ _ _ hout).2 bb
        (by rw [Module.allBlocks] at hbb; exact hbb)
      exact isSome_alookup_of_mem_keys this

/-- With every reachable label indexed and every block non-empty, the block
loop cannot fail. -/
theorem processBlocks_ok (p : FnParams) (st : PassState) (ch : Bool)
    (bs : List BasicBlock)
    (hmap : ∀ bb ∈ bs, (alookup st.origLabelToTraceIdx bb.id).isSome)
    (hne : ∀ bb ∈ bs, bb.body ≠ []) :
    ∃ out, processBlocks p st ch bs = .ok out := by
  induction bs generalizing st ch with
  | nil => exact ⟨(st, [], ch), rfl⟩
  | cons bb rest ih =>
      have hbody : bb.body ≠ [] := hne bb (by simp)
      by_cases hdecl : bb.body.dropWhile isVariable = []
      · obtain ⟨out, hout⟩ := ih st (ch || false)
          (fun b hb => hmap b (by simp [hb])) (fun b hb => hne b (by simp [hb]))
        obtain ⟨o1, o2, o3⟩ := out
        cases hres : processBlocks p st ch (bb :: rest) with
        | ok out2 => exact ⟨out2, rfl⟩
        | error e =>
            exfalso
            unfold processBlocks at hres
            rw [processOneBlock_decl p st bb hbody hdecl] at hres
            simp only [] at hres
            rw [hout] at hres
            simp at hres
      · have hsome := hmap bb (by simp)
        obtain ⟨t, ht⟩ := Option.isSome_iff_exists.1 hsome
        obtain ⟨cid, st1, hC, hEq⟩ := processOneBlock_instr p st bb t hdecl ht
        obtain ⟨FR, -, -, -⟩ := processOneBlock_spec p st bb _ _ _ hEq
        obtain ⟨out, hout⟩ := ih { st1 with nextId := st1.nextId + 1 + 1 }
          (ch || true)
          (fun b hb => by rw [FR.origLabel]; exact hmap b (by simp [hb]))
          (fun b hb => hne b (by simp [hb]))
        obtain ⟨o1, o2, o3⟩ := out
        cases hres : processBlocks p st ch (bb :: rest) with
        | ok out2 => exact ⟨out2, rfl⟩
        | error e =>
            exfalso
            unfold processBlocks at hres
            rw [hEq] at hres
            simp only [] at hres
            rw [hout] at hres
            simp at hres

/-- With every reachable label indexed, a genuinely empty block makes the
block loop fail. -/
theorem processBlocks_error (p : FnParams) (st : PassState) (ch : Bool)
    (bs : List BasicBlock)
    (hmap : ∀ bb ∈ bs, (alookup st.origLabelToTraceIdx bb.id).isSome)
    (hempty : ∃ bb ∈ bs, bb.body = []) :
    ∃ e, processBlocks p st ch bs = .error e := by
  induction bs generalizing st ch with
  | nil => simp at hempty
  | cons bb rest ih =>
      by_cases hbody : bb.body = []
      · refine ⟨"assert failed: empty basic block", ?_⟩
        unfold processBlocks
        rw [show processOneBlock p st bb =
            .error "assert failed: empty basic block" by
          unfold processOneBlock
          rw [if_pos (by simp [hbody])]]
      · obtain ⟨b, hb, hbe⟩ := hempty
        rcases List.mem_cons.1 hb with hb' | hb'
        · subst hb'; exact absurd hbe hbody
        · by_cases hdecl : bb.body.dropWhile isVariable = []
          · obtain ⟨e, he⟩ := ih st (ch || false)
              (fun b2 hb2 => hmap b2 (by simp [hb2])) ⟨b, hb', hbe⟩
            refine ⟨e, ?_⟩
            unfold processBlocks
            rw [processOneBlock_decl p st bb hbody hdecl]
            simp only []
            rw [he]
          · have hsome := hmap bb (by simp)
            obtain ⟨t, ht⟩ := Option.isSome_iff_exists.1 hsome
            obtain ⟨cid, st1, hC, hEq⟩ :=
              processOneBlock_instr p st bb t hdecl ht
            obtain ⟨FR, -, -, -⟩ := processOneBlock_spec p st bb _ _ _ hEq
            obtain ⟨e, he⟩ := ih { st1 with nextId := st1.nextId + 1 + 1 }
              (ch || true)
              (fun b2 hb2 => by rw [FR.origLabel]; exact hmap b2 (by simp [hb2]))
              ⟨b, hb', hbe⟩
            refine ⟨e, ?_⟩
            unfold processBlocks
            rw [hEq]
            simp only []
            rw [he]

/-- The preamble of the instrumentation lambda always succeeds; the lambda's
result is that of the block loop run from a preamble state with the same
trace index map. -/
theorem processFunction_result (bufId ptrId : Nat) (st : PassState)
    (f : Function) :
    ∃ (p : FnParams) (sPre : PassState),
      sPre.origLabelToTraceIdx = st.origLabelToTraceIdx ∧
      processFunction bufId ptrId st f =
        (match processBlocks p sPre false f.blocks with
         | .error e => .error e
         | .ok (a, b, c) => .ok (a, { blocks := b }, c)) := by
  unfold processFunction getUIntConstId
  rcases hZ : getConstId st (.uintConst 32 0) with ⟨zid, s1⟩
  simp only [hZ]
  have SZ := getConstId_spec st (.uintConst 32 0)
  rw [hZ] at SZ
  simp only at SZ
  rcases hO : getConstId s1 (.uintConst 32 1) with ⟨oid, s2⟩
  simp only [hO]
  have SO := getConstId_spec s1 (.uintConst 32 1)
  rw [hO] at SO
  simp only at SO
  rcases hU : getTypeInstruction s2 (.uint 32) with ⟨uid, s3⟩
  simp only [hU]
  have SU := getTypeInstruction_spec s2 (.uint 32)
  rw [hU] at SU
  simp only at SU
  cases hc : s3.traceWithU64 with
  | false =>
      simp only [hc, if_neg, Bool.false_eq_true, if_false]
      exact ⟨⟨bufId, ptrId, zid, oid, uid, 0, 0⟩, s3,
        (SU.2.2.1.origLabel.trans SO.2.2.1.origLabel).trans SZ.2.2.1.origLabel,
        rfl⟩
  | true =>
      simp only [hc, if_true]
      rcases hL : getTypeInstruction s3 (.uint 64) with ⟨lid, s4⟩
      simp only [hL]
      have SL := getTypeInstruction_spec s3 (.uint 64)
      rw [hL] at SL
      simp only at SL
      have hc4 : s4.traceWithU64 = true := SL.2.2.1.u64flag.trans hc
      simp only [hc4, if_true]
      rcases hW : getConstId s4 (.uintConst 64 1) with ⟨wid, s5⟩
      simp only [hW]
      have SW := getConstId_spec s4 (.uintConst 64 1)
      rw [hW] at SW
      simp only at SW
      exact ⟨⟨bufId, ptrId, zid, oid, uid, lid, wid⟩, s5,
        (((SW.2.2.1.origLabel.trans SL.2.2.1.origLabel).trans
          SU.2.2.1.origLabel).trans SO.2.2.1.origLabel).trans
          SZ.2.2.1.origLabel,
        rfl⟩

/-- A genuinely empty block (with the index map covering the function's
blocks) makes the instrumentation lambda fail. -/
theorem processFunction_error (bufId ptrId : Nat) (st : PassState)
    (f : Function)
    (hmap : ∀ bb ∈ f.blocks, (alookup st.origLabelToTraceIdx bb.id).isSome)
    (hempty : ∃ bb ∈ f.blocks, bb.body = []) :
    ∃ e, processFunction bufId ptrId st f = .error e := by
  obtain ⟨p, sPre, hOL, hEq⟩ := processFunction_result bufId ptrId st f
  obtain ⟨e, he⟩ := processBlocks_error p sPre false f.blocks
    (fun bb hb => by rw [hOL]; exact hmap bb hb) hempty
  exact ⟨e, by rw [hEq, he]⟩

/-- With all blocks non-empty and indexed, the instrumentation lambda cannot
fail. -/
theorem processFunction_ok (bufId ptrId : Nat) (st : PassState) (f : Function)
    (hmap : ∀ bb ∈ f.blocks, (alookup st.origLabelToTraceIdx bb.id).isSome)
    (hne : ∀ bb ∈ f.blocks, bb.body ≠ []) :
    ∃ out, processFunction bufId ptrId st f = .ok out := by
  obtain ⟨p, sPre, hOL, hEq⟩ := processFunction_result bufId ptrId st f
  obtain ⟨out, ho⟩ := processBlocks_ok p sPre false f.blocks
    (fun bb hb => by rw [hOL]; exact hmap bb hb) hne
  obtain ⟨o1, o2, o3⟩ := out
  exact ⟨(o1, { blocks := o2 }, o3), by rw [hEq, ho]⟩

/-- A genuinely empty block in any reachable function makes the call-tree
driver fail. -/
theorem processAllFunctions_error (bufId ptrId : Nat) (st : PassState)
    (m0 : Bool) (fs : List Function)
    (hmap : ∀ f ∈ fs, ∀ bb ∈ f.blocks,
      (alookup st.origLabelToTraceIdx bb.id).isSome)
    (hempty : ∃ f ∈ fs, ∃ bb ∈ f.blocks, bb.body = []) :
    ∃ e, processAllFunctions bufId ptrId st m0 fs = .error e := by
  induction fs generalizing st m0 with
  | nil => simp at hempty
  | cons f rest ih =>
      obtain ⟨fw, hfw, hbw⟩ := hempty
      rcases List.mem_cons.1 hfw with hfw' | hfw'
      · subst hfw'
        obtain ⟨e, he⟩ := processFunction_error bufId ptrId st fw
          (hmap fw (by simp)) hbw
        refine ⟨e, ?_⟩
        unfold processAllFunctions
        rw [he]
      · cases hF : processFunction bufId ptrId st f with
        | error e =>
            refine ⟨e, ?_⟩
            unfold processAllFunctions
            rw [hF]
        | ok out =>
            obtain ⟨s1, f1, c1⟩ := out
            obtain ⟨FR, -, -, -⟩ := processFunction_spec bufId ptrId st f s1 f1 c1 hF
            obtain ⟨e, he⟩ := ih s1 (c1 || m0)
              (fun f2 hf2 bb hb => by
                rw [FR.origLabel]
                exact hmap f2 (by simp [hf2]) bb hb)
              ⟨fw, hfw', hbw⟩
            refine ⟨e, ?_⟩
            unfold processAllFunctions
            rw [hF]
            simp only []
            rw [he]


/-- `any` over the flattened reachable blocks equals the nested `any` the
call-tree driver computes. -/
theorem any_flatten_blocks (fs : List Function) (pred : BasicBlock → Bool) :
    ((fs.map Function.blocks).flatten).any pred =
      fs.any (fun f => f.blocks.any pred) := by
  induction fs with
  | nil => rfl
  | cons f rest ih => simp [List.any_append, ih]

/-- Everything the mutation phase of `Process` guarantees on success, for a
fresh pass instance: observer state untouched, the change status exactly
reflects the presence of an instrumentable reachable block, the module-level
artifacts of the resource builder, and preservation of uninstrumented
blocks. -/
theorem processTail_spec (st : PassState) (status : Status) (st' : PassState)
    (hbuf0 : st.basicBlockTraceBufferId = 0)
    (hptr0 : st.ptrStorageBufferRuntimeArrayTypeId = 0)
    (hsb : st.storageBufferExtDefined = false)
    (hic : st.int64CapsDefined = false)
    (h : processTail st = .ok (status, st')) :
    st'.origLabelToTraceIdx = st.origLabelToTraceIdx ∧
    st'.countLog = st.countLog ∧
    st'.mapLog = st.mapLog ∧
    st'.traceWithU64 = st.traceWithU64 ∧
    (status = .SuccessWithChange ↔
      st.module.reachableFunctions.any
        (fun f => f.blocks.any instrumentable) = true) ∧
    st'.module.extensions =
      addExtIfAbsent st.module.extensions kStorageBufferExtName ∧
    st'.module.capabilities =
      (if st.traceWithU64 then
        addCapIfAbsent (addCapIfAbsent st.module.capabilities capabilityInt64)
          capabilityInt64Atomics
       else st.module.capabilities) ∧
    st'.module.version = st.module.version ∧
    (∃ bufId, st'.basicBlockTraceBufferId = bufId ∧ st.nextId ≤ bufId ∧
      (∃ tid, tlookup st'.types (traceStructKey st.traceWithU64) = some tid ∧
        (∃ ptid, tlookup st'.types (.ptr tid storageClassStorageBuffer) =
            some ptid ∧
          mkTraceBufferVar ptid bufId ∈ st'.module.globals) ∧
        Decoration.deco tid decorationBlock ∈ st'.module.decorations ∧
        Decoration.memberDeco tid 0 decorationOffset 0 ∈
          st'.module.decorations) ∧
      mkOpName bufId "basic_block_trace_buffer" ∈ st'.module.debugInsts ∧
      Decoration.decoVal bufId decorationDescriptorSet
        kTraceBufferDescriptorSet ∈ st'.module.decorations ∧
      Decoration.decoVal bufId decorationBinding kTraceBufferBinding ∈
        st'.module.decorations) ∧
    st'.module.reachableFunctions.length =
      st.module.reachableFunctions.length ∧
    ∀ j (hj : j < st.module.reachableFunctions.length)
        (hj' : j < st'.module.reachableFunctions.length),
      (st'.module.reachableFunctions.get ⟨j, hj'⟩).blocks.length =
        (st.module.reachableFunctions.get ⟨j, hj⟩).blocks.length ∧
      ∀ i (hi : i < (st.module.reachableFunctions.get ⟨j, hj⟩).blocks.length)
          (hi' : i <
            (st'.module.reachableFunctions.get ⟨j, hj'⟩).blocks.length),
        instrumentable
            ((st.module.reachableFunctions.get ⟨j, hj⟩).blocks.get ⟨i, hi⟩) =
          false →
          (st'.module.reachableFunctions.get ⟨j, hj'⟩).blocks.get ⟨i, hi'⟩ =
            (st.module.reachableFunctions.get ⟨j, hj⟩).blocks.get ⟨i, hi⟩ := by
  unfold processTail at h
  rcases hG : getBasicBlockTraceBufferId st with ⟨bufId, sG⟩
  simp only [hG] at h
  obtain ⟨gBuf, gN, gLt, gObs, gPtr, gConsts, gTySub, gTid, gNm, gDs, gBd,
    gExt, gCaps, gEps, gVer, gRf⟩ :=
    getBasicBlockTraceBufferId_spec st bufId sG hbuf0 hsb hic hG
  rcases hP : getPtrStorageBufferRuntimeArrayTypeId sG with ⟨ptrId, sP⟩
  simp only [hP] at h
  obtain ⟨pPtr, pMod, pConsts, pObs, pBuf, pSb, pIc, pTySub, pN, pUid, pPos⟩ :=
    getPtrStorageBufferRuntimeArrayTypeId_spec sG ptrId sP
      (by rw [gPtr, hptr0]) hP
  have hrf : sP.module.reachableFunctions = st.module.reachableFunctions := by
    rw [pMod, gRf]
  rw [hrf] at h
  cases hA : processAllFunctions bufId ptrId sP false
      st.module.reachableFunctions with
  | error e => rw [hA] at h; simp at h
  | ok out =>
      obtain ⟨sA, fns', modif⟩ := out
      rw [hA] at h
      simp only [Except.ok.injEq, Prod.mk.injEq] at h
      obtain ⟨hstat, hst'⟩ := h
      subst hstat
      subst hst'
      obtain ⟨FA, hmod, hlenA, helemA⟩ :=
        processAllFunctions_spec bufId ptrId sP false _ sA fns' modif hA
      have hmodif : modif = st.module.reachableFunctions.any
          (fun f => f.blocks.any instrumentable) := by simpa using hmod
      refine ⟨?_, ?_, ?_, ?_, ?_, ?_, ?_, ?_, ?_, ?_, ?_⟩
      · exact (FA.origLabel.trans pObs.origLabel).trans gObs.origLabel
      · exact (FA.countLog.trans pObs.countLog).trans gObs.countLog
      · exact (FA.mapLog.trans pObs.mapLog).trans gObs.mapLog
      · exact (FA.u64flag.trans pObs.u64flag).trans gObs.u64flag
      · rw [hmodif]
        cases hany : st.module.reachableFunctions.any
            (fun f => f.blocks.any instrumentable) <;> simp [hany]
      · show sA.module.extensions = _
        rw [FA.module, pMod, gExt]
      · show sA.module.capabilities = _
        rw [FA.module, pMod, gCaps]
      · show sA.module.version = _
        rw [FA.module, pMod, gVer]
      · refine ⟨bufId, ?_, gN, ?_, ?_, ?_, ?_⟩
        · show sA.basicBlockTraceBufferId = bufId
          rw [FA.bufferId, pBuf, gBuf]
        · obtain ⟨tid, hTid, ⟨ptid, hPtid, hVar⟩, hBlk, hOff⟩ := gTid
          refine ⟨tid, ?_, ⟨ptid, ?_, ?_⟩, ?_, ?_⟩
          · show tlookup sA.types _ = _
            exact FA.types _ _ (pTySub _ _ hTid)
          · show tlookup sA.types _ = _
            exact FA.types _ _ (pTySub _ _ hPtid)
          · show _ ∈ sA.module.globals
            rw [FA.module, pMod]
            exact hVar
          · show _ ∈ sA.module.decorations
            rw [FA.module, pMod]
            exact hBlk
          · show _ ∈ sA.module.decorations
            rw [FA.module, pMod]
            exact hOff
        · show _ ∈ sA.module.debugInsts
          rw [FA.module, pMod]
          exact gNm
        · show _ ∈ sA.module.decorations
          rw [FA.module, pMod]
          exact gDs
        · show _ ∈ sA.module.decorations
          rw [FA.module, pMod]
          exact gBd
      · exact hlenA
      · exact helemA

/-- Witness for C1: the bijection theorem applied to the sample module. -/
theorem labelBasicBlocks_bijection_witness :
    ∃ st', labelBasicBlocks (mkState sampleModule false) = .ok st' ∧
      st'.origLabelToTraceIdx.length =
        (mkState sampleModule false).module.allBlocks.length ∧
      (∀ j (hj : j < (mkState sampleModule false).module.allBlocks.length),
        alookup st'.origLabelToTraceIdx
          ((mkState sampleModule false).module.allBlocks.get ⟨j, hj⟩).id = some j) ∧
      (∀ l n, alookup st'.origLabelToTraceIdx l = some n →
        ∃ hn : n < (mkState sampleModule false).module.allBlocks.length,
          ((mkState sampleModule false).module.allBlocks.get ⟨n, hn⟩).id = l) :=
  labelBasicBlocks_bijection (mkState sampleModule false) (by decide)
    (by decide) (by decide)

end SpvOpt

namespace SpvOpt

/-- The conclusions of `processTail_spec`, transported to a notified state
`{ st with origLabelToTraceIdx := enum, countLog := cl, mapLog := ml }`. -/
theorem Process_core (st : PassState) (cl : List (Nat × Module))
    (ml : List (List (Nat × Nat) × Module)) (status : Status)
    (st' : PassState)
    (hbuf0 : st.basicBlockTraceBufferId = 0)
    (hptr0 : st.ptrStorageBufferRuntimeArrayTypeId = 0)
    (hsb : st.storageBufferExtDefined = false)
    (hic : st.int64CapsDefined = false)
    (h : processTail { st with
        origLabelToTraceIdx := enumBlocks 0 st.module.allBlocks,
        countLog := cl, mapLog := ml } = .ok (status, st')) :
    st'.origLabelToTraceIdx = enumBlocks 0 st.module.allBlocks ∧
    st'.countLog = cl ∧
    st'.mapLog = ml ∧
    st'.traceWithU64 = st.traceWithU64 ∧
    (status = .SuccessWithChange ↔
      st.module.allBlocks.any instrumentable = true) ∧
    st'.module.extensions =
      addExtIfAbsent st.module.extensions kStorageBufferExtName ∧
    st'.module.capabilities =
      (if st.traceWithU64 then
        addCapIfAbsent (addCapIfAbsent st.module.capabilities capabilityInt64)
          capabilityInt64Atomics
       else st.module.capabilities) ∧
    st'.module.version = st.module.version ∧
    (∃ bufId, st'.basicBlockTraceBufferId = bufId ∧ st.nextId ≤ bufId ∧
      (∃ tid, tlookup st'.types (traceStructKey st.traceWithU64) = some tid ∧
        (∃ ptid, tlookup st'.types (.ptr tid storageClassStorageBuffer) =
            some ptid ∧
          mkTraceBufferVar ptid bufId ∈ st'.module.globals) ∧
        Decoration.deco tid decorationBlock ∈ st'.module.decorations ∧
        Decoration.memberDeco tid 0 decorationOffset 0 ∈
          st'.module.decorations) ∧
      mkOpName bufId "basic_block_trace_buffer" ∈ st'.module.debugInsts ∧
      Decoration.decoVal bufId decorationDescriptorSet
        kTraceBufferDescriptorSet ∈ st'.module.decorations ∧
      Decoration.decoVal bufId decorationBinding kTraceBufferBinding ∈
        st'.module.decorations) ∧
    st'.module.reachableFunctions.length =
      st.module.reachableFunctions.length ∧
    ∀ j (hj : j < st.module.reachableFunctions.length)
        (hj' : j < st'.module.reachableFunctions.length),
      (st'.module.reachableFunctions.get ⟨j, hj'⟩).blocks.length =
        (st.module.reachableFunctions.get ⟨j, hj⟩).blocks.length ∧
      ∀ i (hi : i < (st.module.reachableFunctions.get ⟨j, hj⟩).blocks.length)
          (hi' : i <
            (st'.module.reachableFunctions.get ⟨j, hj'⟩).blocks.length),
        instrumentable
            ((st.module.reachableFunctions.get ⟨j, hj⟩).blocks.get ⟨i, hi⟩) =
          false →
          (st'.module.reachableFunctions.get ⟨j, hj'⟩).blocks.get ⟨i, hi'⟩ =
            (st.module.reachableFunctions.get ⟨j, hj⟩).blocks.get ⟨i, hi⟩ := by
  obtain ⟨tOL, tCL, tML, tTW, tStat, tExt, tCaps, tVer, tArt, tLen, tElem⟩ :=
    processTail_spec { st with
        origLabelToTraceIdx := enumBlocks 0 st.module.allBlocks,
        countLog := cl, mapLog := ml } status st' hbuf0 hptr0 hsb hic h
  refine ⟨tOL, tCL, tML, tTW, ?_, tExt, tCaps, tVer, tArt, tLen, tElem⟩
  have e1 : st.module.allBlocks.any instrumentable =
      st.module.reachableFunctions.any (fun f => f.blocks.any instrumentable) :=
    any_flatten_blocks _ _
  rw [e1]
  exact tStat

/-- The full success behaviour of `Process` on a well-formed module and a
fresh pass instance. -/
theorem Process_spec (st : PassState) (status : Status) (st' : PassState)
    (hinit : st.origLabelToTraceIdx = [])
    (hbuf0 : st.basicBlockTraceBufferId = 0)
    (hptr0 : st.ptrStorageBufferRuntimeArrayTypeId = 0)
    (hsb : st.storageBufferExtDefined = false)
    (hic : st.int64CapsDefined = false)
    (hclog : st.countLog = [])
    (hmlog : st.mapLog = [])
    (hids : ∀ bb ∈ st.module.allBlocks, bb.id ≠ 0)
    (hnodup : (st.module.allBlocks.map BasicBlock.id).Nodup)
    (h : Process st = .ok (status, st')) :
    st'.origLabelToTraceIdx = enumBlocks 0 st.module.allBlocks ∧
    (∀ bb ∈ st.module.allBlocks,
      (alookup st'.origLabelToTraceIdx bb.id).isSome) ∧
    (st.hasCountCallback = true →
      st'.countLog = [(st.module.allBlocks.length, st.module)]) ∧
    (st.hasCountCallback = false → st'.countLog = []) ∧
    (st.hasMapCallback = true →
      st'.mapLog = [(enumBlocks 0 st.module.allBlocks, st.module)]) ∧
    (st.hasMapCallback = false → st'.mapLog = []) ∧
    (status = .SuccessWithChange ↔
      st.module.allBlocks.any instrumentable = true) ∧
    st'.module.extensions =
      addExtIfAbsent st.module.extensions kStorageBufferExtName ∧
    st'.module.capabilities =
      (if st.traceWithU64 then
        addCapIfAbsent (addCapIfAbsent st.module.capabilities capabilityInt64)
          capabilityInt64Atomics
       else st.module.capabilities) ∧
    (∃ bufId, st'.basicBlockTraceBufferId = bufId ∧ st.nextId ≤ bufId ∧
      (∃ tid, tlookup st'.types (traceStructKey st.traceWithU64) = some tid ∧
        (∃ ptid, tlookup st'.types (.ptr tid storageClassStorageBuffer) =
            some ptid ∧
          mkTraceBufferVar ptid bufId ∈ st'.module.globals) ∧
        Decoration.deco tid decorationBlock ∈ st'.module.decorations ∧
        Decoration.memberDeco tid 0 decorationOffset 0 ∈
          st'.module.decorations) ∧
      mkOpName bufId "basic_block_trace_buffer" ∈ st'.module.debugInsts ∧
      Decoration.decoVal bufId decorationDescriptorSet
        kTraceBufferDescriptorSet ∈ st'.module.decorations ∧
      Decoration.decoVal bufId decorationBinding kTraceBufferBinding ∈
        st'.module.decorations) ∧
    st'.module.reachableFunctions.length =
      st.module.reachableFunctions.length ∧
    ∀ j (hj : j < st.module.reachableFunctions.length)
        (hj' : j < st'.module.reachableFunctions.length),
      (st'.module.reachableFunctions.get ⟨j, hj'⟩).blocks.length =
        (st.module.reachableFunctions.get ⟨j, hj⟩).blocks.length ∧
      ∀ i (hi : i < (st.module.reachableFunctions.get ⟨j, hj⟩).blocks.length)
          (hi' : i <
            (st'.module.reachableFunctions.get ⟨j, hj'⟩).blocks.length),
        instrumentable
            ((st.module.reachableFunctions.get ⟨j, hj⟩).blocks.get ⟨i, hi⟩) =
          false →
          (st'.module.reachableFunctions.get ⟨j, hj'⟩).blocks.get ⟨i, hi'⟩ =
            (st.module.reachableFunctions.get ⟨j, hj⟩).blocks.get ⟨i, hi⟩ := by
  unfold Process at h
  rw [labelBasicBlocks_ok st hinit hids hnodup] at h
  simp only [] at h
  have hcomplete : ∀ (st2 : PassState),
      st2.origLabelToTraceIdx = enumBlocks 0 st.module.allBlocks →
      ∀ bb ∈ st.module.allBlocks,
        (alookup st2.origLabelToTraceIdx bb.id).isSome := by
    intro st2 he bb hbb
    rw [he]
    apply isSome_alookup_of_mem_keys
    rw [keys_enumBlocks]
    exact List.mem_map.2 ⟨bb, hbb, rfl⟩
  by_cases hcc : st.hasCountCallback = true <;>
    by_cases hmc : st.hasMapCallback = true
  · rw [if_pos hcc] at h
    simp only [] at h
    rw [if_pos hmc] at h
    have h' : processTail { st with
        origLabelToTraceIdx := enumBlocks 0 st.module.allBlocks,
        countLog := st.countLog ++
          [((enumBlocks 0 st.module.allBlocks).length, st.module)],
        mapLog := st.mapLog ++
          [(enumBlocks 0 st.module.allBlocks, st.module)] } =
        .ok (status, st') := h
    obtain ⟨cOL, cCL, cML, cTW, cStat, cExt, cCaps, cVer, cArt, cLen, cElem⟩ :=
      Process_core st _ _ status st' hbuf0 hptr0 hsb hic h'
    refine ⟨cOL, hcomplete st' cOL, fun _ => ?_, fun hf => ?_, fun _ => ?_,
      fun hf => ?_, cStat, cExt, cCaps, cArt, cLen, cElem⟩
    · rw [cCL, hclog, enumBlocks_length]
      simp
    · rw [hcc] at hf; simp at hf
    · rw [cML, hmlog]
      simp
    · rw [hmc] at hf; simp at hf
  · rw [if_pos hcc] at h
    simp only [] at h
    rw [if_neg hmc] at h
    have h' : processTail { st with
        origLabelToTraceIdx := enumBlocks 0 st.module.allBlocks,
        countLog := st.countLog ++
          [((enumBlocks 0 st.module.allBlocks).length, st.module)],
        mapLog := st.mapLog } = .ok (status, st') := h
    obtain ⟨cOL, cCL, cML, cTW, cStat, cExt, cCaps, cVer, cArt, cLen, cElem⟩ :=
      Process_core st _ _ status st' hbuf0 hptr0 hsb hic h'
    refine ⟨cOL, hcomplete st' cOL, fun _ => ?_, fun hf => ?_, fun ht => ?_,
      fun _ => ?_, cStat, cExt, cCaps, cArt, cLen, cElem⟩
    · rw [cCL, hclog, enumBlocks_length]
      simp
    · rw [hcc] at hf; simp at hf
    · exact absurd ht hmc
    · rw [cML, hmlog]
  · rw [if_neg hcc] at h
    simp only [] at h
    rw [if_pos hmc] at h
    have h' : processTail { st with
        origLabelToTraceIdx := enumBlocks 0 st.module.allBlocks,
        countLog := st.countLog,
        mapLog := st.mapLog ++
          [(enumBlocks 0 st.module.allBlocks, st.module)] } =
        .ok (status, st') := h
    obtain ⟨cOL, cCL, cML, cTW, cStat, cExt, cCaps, cVer, cArt, cLen, cElem⟩ :=
      Process_core st _ _ status st' hbuf0 hptr0 hsb hic h'
    refine ⟨cOL, hcomplete st' cOL, fun ht => ?_, fun _ => ?_, fun _ => ?_,
      fun hf => ?_, cStat, cExt, cCaps, cArt, cLen, cElem⟩
    · exact absurd ht hcc
    · rw [cCL, hclog]
    · rw [cML, hmlog]
      simp
    · rw [hmc] at hf; simp at hf
  · rw [if_neg hcc] at h
    simp only [] at h
    rw [if_neg hmc] at h
    have h' : processTail { st with
        origLabelToTraceIdx := enumBlocks 0 st.module.allBlocks,
        countLog := st.countLog,
        mapLog := st.mapLog } = .ok (status, st') := h
    obtain ⟨cOL, cCL, cML, cTW, cStat, cExt, cCaps, cVer, cArt, cLen, cElem⟩ :=
      Process_core st _ _ status st' hbuf0 hptr0 hsb hic h'
    refine ⟨cOL, hcomplete st' cOL, fun ht => ?_, fun _ => ?_, fun ht => ?_,
      fun _ => ?_, cStat, cExt, cCaps, cArt, cLen, cElem⟩
    · exact absurd ht hcc
    · rw [cCL, hclog]
    · exact absurd ht hmc
    · rw [cML, hmlog]

end SpvOpt

namespace SpvOpt

/-- With a complete trace index map and an empty reachable block, the
mutation phase fails hard. -/
theorem processTail_error (st : PassState)
    (hbuf0 : st.basicBlockTraceBufferId = 0)
    (hptr0 : st.ptrStorageBufferRuntimeArrayTypeId = 0)
    (hsb : st.storageBufferExtDefined = false)
    (hic : st.int64CapsDefined = false)
    (hmap : ∀ f ∈ st.module.reachableFunctions, ∀ bb ∈ f.blocks,
      (alookup st.origLabelToTraceIdx bb.id).isSome)
    (hempty : ∃ f ∈ st.module.reachableFunctions, ∃ bb ∈ f.blocks,
      bb.body = []) :
    ∃ e, processTail st = .error e := by
  rcases hG : getBasicBlockTraceBufferId st with ⟨bufId, sG⟩
  obtain ⟨gBuf, gN, gLt, gObs, gPtr, gConsts, gTySub, gTid, gNm, gDs, gBd,
    gExt, gCaps, gEps, gVer, gRf⟩ :=
    getBasicBlockTraceBufferId_spec st bufId sG hbuf0 hsb hic hG
  rcases hP : getPtrStorageBufferRuntimeArrayTypeId sG with ⟨ptrId, sP⟩
  obtain ⟨pPtr, pMod, pConsts, pObs, pBuf, pSb, pIc, pTySub, pN, pUid, pPos⟩ :=
    getPtrStorageBufferRuntimeArrayTypeId_spec sG ptrId sP
      (by rw [gPtr, hptr0]) hP
  have hrf : sP.module.reachableFunctions = st.module.reachableFunctions := by
    rw [pMod, gRf]
  have hol : sP.origLabelToTraceIdx = st.origLabelToTraceIdx :=
    pObs.origLabel.trans gObs.origLabel
  obtain ⟨e, he⟩ := processAllFunctions_error bufId ptrId sP false
    st.module.reachableFunctions
    (fun f hf bb hb => by rw [hol]; exact hmap f hf bb hb) hempty
  refine ⟨e, ?_⟩
  unfold processTail
  rw [hG]
  simp only []
  rw [hP]
  simp only []
  rw [hrf, he]

/-- **C9.** A module containing a basic block whose label lacks a result id,
or containing a genuinely empty basic block (no instructions after the
label), makes `Process` terminate with a fatal error on any fresh pass
instance: the block is neither skipped nor handled recoverably. -/
theorem Process_error (st : PassState)
    (hbuf0 : st.basicBlockTraceBufferId = 0)
    (hptr0 : st.ptrStorageBufferRuntimeArrayTypeId = 0)
    (hsb : st.storageBufferExtDefined = false)
    (hic : st.int64CapsDefined = false)
    (hbad : (∃ bb ∈ st.module.allBlocks, bb.id = 0) ∨
            (∃ bb ∈ st.module.allBlocks, bb.body = [])) :
    ∃ e, Process st = .error e := by
  by_cases hz : ∃ bb ∈ st.module.allBlocks, bb.id = 0
  · obtain ⟨e, he⟩ := labelBasicBlocks_error st hz
    exact ⟨e, by unfold Process; rw [he]⟩
  · have hempty : ∃ bb ∈ st.module.allBlocks, bb.body = [] :=
      hbad.resolve_left hz
    push_neg at hz
    obtain ⟨out, hout⟩ := labelBlocksInFunc_total (st.origLabelToTraceIdx, 0)
      st.module.allBlocks hz
    have hkeys := (labelBlocksInFunc_complete _ _ _ hout).2
    obtain ⟨m, n⟩ := out
    rw [Module.allBlocks] at hout
    have hlbl : labelBasicBlocks st =
        .ok { st with origLabelToTraceIdx := m } := by
      unfold labelBasicBlocks
      rw [labelFuncs_eq_flat, hout]
    have hmapN : ∀ f ∈ st.module.reachableFunctions, ∀ bb ∈ f.blocks,
        (alookup m bb.id).isSome := by
      intro f hf bb hb
      apply isSome_alookup_of_mem_keys
      exact hkeys bb (show bb ∈
          (st.module.reachableFunctions.map Function.blocks).flatten from
        List.mem_flatten.2 ⟨f.blocks, List.mem_map.2 ⟨f, hf, rfl⟩, hb⟩)
    obtain ⟨bbw, hbbw, hbodyw⟩ := hempty
    have hemptyN : ∃ f ∈ st.module.reachableFunctions, ∃ bb ∈ f.blocks,
        bb.body = [] := by
      have hfl : bbw ∈
          (st.module.reachableFunctions.map Function.blocks).flatten := hbbw
      rw [List.mem_flatten] at hfl
      obtain ⟨l, hl, hbl⟩ := hfl
      rw [List.mem_map] at hl
      obtain ⟨f, hf, rfl⟩ := hl
      exact ⟨f, hf, bbw, hbl, hbodyw⟩
    by_cases hcc : st.hasCountCallback = true <;>
      by_cases hmc : st.hasMapCallback = true
    · obtain ⟨e, he⟩ := processTail_error { st with
          origLabelToTraceIdx := m,
          countLog := st.countLog ++ [(m.length, st.module)],
          mapLog := st.mapLog ++ [(m, st.module)] }
        hbuf0 hptr0 hsb hic hmapN hemptyN
      refine ⟨e, ?_⟩
      unfold Process
      rw [hlbl]
      simp only []
      rw [if_pos hcc]
      simp only []
      rw [if_pos hmc]
      exact he
    · obtain ⟨e, he⟩ := processTail_error { st with
          origLabelToTraceIdx := m,
          countLog := st.countLog ++ [(m.length, st.module)],
          mapLog := st.mapLog }
        hbuf0 hptr0 hsb hic hmapN hemptyN
      refine ⟨e, ?_⟩
      unfold Process
      rw [hlbl]
      simp only []
      rw [if_pos hcc]
      simp only []
      rw [if_neg hmc]
      exact he
    · obtain ⟨e, he⟩ := processTail_error { st with
          origLabelToTraceIdx := m,
          countLog := st.countLog,
          mapLog := st.mapLog ++ [(m, st.module)] }
        hbuf0 hptr0 hsb hic hmapN hemptyN
      refine ⟨e, ?_⟩
      unfold Process
      rw [hlbl]
      simp only []
      rw [if_neg hcc]
      simp only []
      rw [if_pos hmc]
      exact he
    · obtain ⟨e, he⟩ := processTail_error { st with
          origLabelToTraceIdx := m,
          countLog := st.countLog,
          mapLog := st.mapLog }
        hbuf0 hptr0 hsb hic hmapN hemptyN
      refine ⟨e, ?_⟩
      unfold Process
      rw [hlbl]
      simp only []
      rw [if_neg hcc]
      simp only []
      rw [if_neg hmc]
      exact he

end SpvOpt

namespace SpvOpt

/-- Witness for C9: a module with a label lacking its result id, and a module
with a genuinely empty block, both make `Process` fail hard. -/
theorem Process_error_witness :
    (∃ e, Process (mkState noLabelIdModule false) = .error e) ∧
    (∃ e, Process (mkState emptyBlockModule false) = .error e) :=
  ⟨Process_error (mkState noLabelIdModule false) (by decide) (by decide)
      (by decide) (by decide) (Or.inl (by decide)),
   Process_error (mkState emptyBlockModule false) (by decide) (by decide)
      (by decide) (by decide) (Or.inr (by decide))⟩

/-- **C2.** On every successful run of a fresh pass instance, the count
observer, if registered, is notified exactly once with exactly `N` (the
number of indexed reachable blocks), and the map observer, if registered, is
notified exactly once with the completed label-to-index map; each logged
invocation observes the unmutated input module (notification happens after
indexing and strictly before any module mutation); an unregistered observer
is silently skipped. -/
theorem Process_observer_contract (st : PassState) (status : Status)
    (st' : PassState)
    (hinit : st.origLabelToTraceIdx = [])
    (hbuf0 : st.basicBlockTraceBufferId = 0)
    (hptr0 : st.ptrStorageBufferRuntimeArrayTypeId = 0)
    (hsb : st.storageBufferExtDefined = false)
    (hic : st.int64CapsDefined = false)
    (hclog : st.countLog = [])
    (hmlog : st.mapLog = [])
    (hids : ∀ bb ∈ st.module.allBlocks, bb.id ≠ 0)
    (hnodup : (st.module.allBlocks.map BasicBlock.id).Nodup)
    (h : Process st = .ok (status, st')) :
    (st.hasCountCallback = true →
      st'.countLog = [(st.module.allBlocks.length, st.module)]) ∧
    (st.hasCountCallback = false → st'.countLog = []) ∧
    (st.hasMapCallback = true →
      st'.mapLog = [(enumBlocks 0 st.module.allBlocks, st.module)]) ∧
    (st.hasMapCallback = false → st'.mapLog = []) := by
  obtain ⟨-, -, h1, h2, h3, h4, -, -, -, -, -, -⟩ :=
    Process_spec st status st' hinit hbuf0 hptr0 hsb hic hclog hmlog hids
      hnodup h
  exact ⟨h1, h2, h3, h4⟩

/-- Witness for C2 on the sample module: both observers see exactly one
notification carrying the block count, resp. the completed map, paired with
the unmutated input module. -/
theorem Process_observer_contract_witness :
    ∃ status st', Process (mkState sampleModule false) = .ok (status, st') ∧
      st'.countLog =
        [((mkState sampleModule false).module.allBlocks.length,
          (mkState sampleModule false).module)] ∧
      st'.mapLog =
        [(enumBlocks 0 (mkState sampleModule false).module.allBlocks,
          (mkState sampleModule false).module)] := by
  cases hres : Process (mkState sampleModule false) with
  | error e =>
      have hok : isOkResult (Process (mkState sampleModule false)) = true := by
        decide
      rw [hres] at hok
      simp [isOkResult] at hok
  | ok out =>
      obtain ⟨status, st'⟩ := out
      obtain ⟨h1, -, h3, -⟩ :=
        Process_observer_contract (mkState sampleModule false) status st'
          rfl rfl rfl rfl rfl rfl rfl (by decide) (by decide) hres
      exact ⟨status, st', rfl, h1 rfl, h3 rfl⟩

/-- **C10.** Even when a successful run reports the without-change status,
the module has already been mutated: the counter buffer variable, its types,
debug name, descriptor-set/binding/block/offset decorations and the
storage-buffer extension are present in the output regardless of the status,
which reflects only block-level insertions (it is `SuccessWithChange` iff
some reachable block is instrumentable). -/
theorem Process_mutates_even_without_change (st : PassState) (status : Status)
    (st' : PassState)
    (hinit : st.origLabelToTraceIdx = [])
    (hbuf0 : st.basicBlockTraceBufferId = 0)
    (hptr0 : st.ptrStorageBufferRuntimeArrayTypeId = 0)
    (hsb : st.storageBufferExtDefined = false)
    (hic : st.int64CapsDefined = false)
    (hclog : st.countLog = [])
    (hmlog : st.mapLog = [])
    (hids : ∀ bb ∈ st.module.allBlocks, bb.id ≠ 0)
    (hnodup : (st.module.allBlocks.map BasicBlock.id).Nodup)
    (h : Process st = .ok (status, st')) :
    (∃ bufId, st'.basicBlockTraceBufferId = bufId ∧ st.nextId ≤ bufId ∧
      (∃ tid, tlookup st'.types (traceStructKey st.traceWithU64) = some tid ∧
        (∃ ptid, tlookup st'.types (.ptr tid storageClassStorageBuffer) =
            some ptid ∧
          mkTraceBufferVar ptid bufId ∈ st'.module.globals) ∧
        Decoration.deco tid decorationBlock ∈ st'.module.decorations ∧
        Decoration.memberDeco tid 0 decorationOffset 0 ∈
          st'.module.decorations) ∧
      mkOpName bufId "basic_block_trace_buffer" ∈ st'.module.debugInsts ∧
      Decoration.decoVal bufId decorationDescriptorSet
        kTraceBufferDescriptorSet ∈ st'.module.decorations ∧
      Decoration.decoVal bufId decorationBinding kTraceBufferBinding ∈
        st'.module.decorations) ∧
    st'.module.extensions =
      addExtIfAbsent st.module.extensions kStorageBufferExtName ∧
    (status = .SuccessWithChange ↔
      st.module.allBlocks.any instrumentable = true) := by
  obtain ⟨-, -, -, -, -, -, h7, h8, -, h10, -, -⟩ :=
    Process_spec st status st' hinit hbuf0 hptr0 hsb hic hclog hmlog hids
      hnodup h
  exact ⟨h10, h8, h7⟩

/-- Witness for C10 on the declaration-only module: the run reports
`SuccessWithoutChange`, yet the counter buffer variable is in the output
module's globals. -/
theorem Process_mutates_even_without_change_witness :
    ∃ st', Process (mkState declOnlyModule false) =
        .ok (Status.SuccessWithoutChange, st') ∧
      ∃ bufId tid ptid,
        tlookup st'.types (.ptr tid storageClassStorageBuffer) = some ptid ∧
        mkTraceBufferVar ptid bufId ∈ st'.module.globals := by
  cases hres : Process (mkState declOnlyModule false) with
  | error e =>
      have hok : isOkResult (Process (mkState declOnlyModule false)) = true := by
        decide
      rw [hres] at hok
      simp [isOkResult] at hok
  | ok out =>
      obtain ⟨status, st'⟩ := out
      obtain ⟨hart, -, hiff⟩ :=
        Process_mutates_even_without_change (mkState declOnlyModule false)
          status st' rfl rfl rfl rfl rfl rfl rfl (by decide) (by decide) hres
      have hnc : ¬ status = Status.SuccessWithChange := by
        rw [hiff]; decide
      cases status with
      | SuccessWithChange => exact absurd rfl hnc
      | SuccessWithoutChange =>
          obtain ⟨bufId, -, -, ⟨tid, -, ⟨ptid, hpt, hvar⟩, -, -⟩, -, -, -⟩ :=
            hart
          exact ⟨st', rfl, bufId, tid, ptid, hpt, hvar⟩

/-- **C5.** A reachable declaration-only block is skipped by the inserter:
on a successful run it comes out unchanged (zero insertions) while still
holding an assigned trace index in the reported map, and the overall status
is `SuccessWithChange` exactly when some (hence some other) reachable block
is instrumentable. -/
theorem Process_skips_declaration_only_blocks (st : PassState)
    (status : Status) (st' : PassState)
    (hinit : st.origLabelToTraceIdx = [])
    (hbuf0 : st.basicBlockTraceBufferId = 0)
    (hptr0 : st.ptrStorageBufferRuntimeArrayTypeId = 0)
    (hsb : st.storageBufferExtDefined = false)
    (hic : st.int64CapsDefined = false)
    (hclog : st.countLog = [])
    (hmlog : st.mapLog = [])
    (hids : ∀ bb ∈ st.module.allBlocks, bb.id ≠ 0)
    (hnodup : (st.module.allBlocks.map BasicBlock.id).Nodup)
    (h : Process st = .ok (status, st'))
    (j i : Nat) (hj : j < st.module.reachableFunctions.length)
    (hi : i < (st.module.reachableFunctions.get ⟨j, hj⟩).blocks.length)
    (hdecl : instrumentable
      ((st.module.reachableFunctions.get ⟨j, hj⟩).blocks.get ⟨i, hi⟩) =
      false) :
    (alookup st'.origLabelToTraceIdx
      ((st.module.reachableFunctions.get ⟨j, hj⟩).blocks.get ⟨i, hi⟩).id).isSome ∧
    (∃ (hj' : j < st'.module.reachableFunctions.length)
       (hi' : i < (st'.module.reachableFunctions.get ⟨j, hj'⟩).blocks.length),
      (st'.module.reachableFunctions.get ⟨j, hj'⟩).blocks.get ⟨i, hi'⟩ =
        (st.module.reachableFunctions.get ⟨j, hj⟩).blocks.get ⟨i, hi⟩) ∧
    (status = .SuccessWithChange ↔
      st.module.allBlocks.any instrumentable = true) := by
  obtain ⟨-, hcomp, -, -, -, -, h7, -, -, -, h11, h12⟩ :=
    Process_spec st status st' hinit hbuf0 hptr0 hsb hic hclog hmlog hids
      hnodup h
  have hj' : j < st'.module.reachableFunctions.length := by
    rw [h11]; exact hj
  obtain ⟨hlen, helem⟩ := h12 j hj hj'
  have hi' : i < (st'.module.reachableFunctions.get ⟨j, hj'⟩).blocks.length := by
    rw [hlen]; exact hi
  refine ⟨?_, ⟨hj', hi', helem i hi hi' hdecl⟩, h7⟩
  apply hcomp
  show _ ∈ (st.module.reachableFunctions.map Function.blocks).flatten
  exact List.mem_flatten.2
    ⟨(st.module.reachableFunctions.get ⟨j, hj⟩).blocks,
     List.mem_map.2 ⟨st.module.reachableFunctions.get ⟨j, hj⟩,
       List.get_mem _ _ _, rfl⟩,
     List.get_mem _ _ _⟩

/-- Witness for C5 on the mixed module: the declaration-only first block is
unchanged and indexed while the run still reports a change (its second block
is instrumentable). -/
theorem Process_skips_declaration_only_blocks_witness :
    ∃ status st',
      Process (mkState mixedModule false) = .ok (status, st') ∧
      (alookup st'.origLabelToTraceIdx 10).isSome ∧
      (∃ (hj' : 0 < st'.module.reachableFunctions.length)
         (hi' : 0 <
           (st'.module.reachableFunctions.get ⟨0, hj'⟩).blocks.length),
        (st'.module.reachableFunctions.get ⟨0, hj'⟩).blocks.get ⟨0, hi'⟩ =
          mkBB 10 [sampleVar 40]) ∧
      status = Status.SuccessWithChange := by
  cases hres : Process (mkState mixedModule false) with
  | error e =>
      have hok : isOkResult (Process (mkState mixedModule false)) = true := by
        decide
      rw [hres] at hok
      simp [isOkResult] at hok
  | ok out =>
      obtain ⟨status, st'⟩ := out
      obtain ⟨hsome, hpres, hiff⟩ :=
        Process_skips_declaration_only_blocks (mkState mixedModule false)
          status st' rfl rfl rfl rfl rfl rfl rfl (by decide) (by decide) hres
          0 0 (by decide) (by decide) (by decide)
      exact ⟨status, st', rfl, hsome, hpres, hiff.mpr (by decide)⟩

end SpvOpt

namespace SpvOpt

/-- The head of `dropWhile`, when present, falsifies the predicate. -/
theorem head_dropWhile_not {α : Type} (pred : α → Bool) (l : List α) :
    ∀ x, ((l.dropWhile pred).head? = some x) → pred x = false := by
  induction l with
  | nil => intro x hx; simp [List.dropWhile] at hx
  | cons a rest ih =>
      intro x hx
      rw [List.dropWhile_cons] at hx
      by_cases ha : pred a = true
      · rw [if_pos ha] at hx
        exact ih x hx
      · rw [if_neg ha] at hx
        simp only [List.head?_cons, Option.some.injEq] at hx
        subst hx
        cases hpa : pred a
        · rfl
        · exact absurd hpa ha

/-- Count of the requested extension after the guarded `AddExtension`. -/
theorem addExtIfAbsent_count (l : List String) (e : String) :
    (addExtIfAbsent l e).count e = max 1 (l.count e) := by
  unfold addExtIfAbsent
  by_cases h : e ∈ l
  · rw [if_pos (by simpa using h)]
    have hpos : 0 < l.count e := List.count_pos_iff.2 h
    omega
  · rw [if_neg (by simpa using h), List.count_append,
      List.count_eq_zero.2 h]
    simp

/-- Count of the requested capability after the guarded `AddCapability`. -/
theorem addCapIfAbsent_count (l : List Nat) (c : Nat) :
    (addCapIfAbsent l c).count c = max 1 (l.count c) := by
  unfold addCapIfAbsent
  by_cases h : c ∈ l
  · rw [if_pos (by simpa using h)]
    have hpos : 0 < l.count c := List.count_pos_iff.2 h
    omega
  · rw [if_neg (by simpa using h), List.count_append,
      List.count_eq_zero.2 h]
    simp

/-- The guarded `AddCapability` leaves counts of other capabilities alone. -/
theorem addCapIfAbsent_count_ne (l : List Nat) (c d : Nat) (h : c ≠ d) :
    (addCapIfAbsent l c).count d = l.count d := by
  unfold addCapIfAbsent
  by_cases hc : l.contains c
  · rw [if_pos hc]
  · rw [if_neg hc, List.count_append,
      List.count_eq_zero.2 (show d ∉ [c] by simp; exact fun hdc => h hdc.symm)]
    omega

/-- The debug/decoration/extension/capability/interface tail of the builder
preserves the allocator and both manager tables. -/
theorem stateShell_chain (st : PassState) (bufId : Nat) :
    StateShell st
      (appendInterfaceVar (maybeAddInt64Caps (addStorageBufferExt st))
        bufId) := by
  have SA := (addStorageBufferExt_shell st).2.2.2.1
  have SM := (maybeAddInt64Caps_shell (addStorageBufferExt st)).2.2.2.1
  have SI := (appendInterfaceVar_shell
    (maybeAddInt64Caps (addStorageBufferExt st)) bufId).2.2.2.1
  exact ⟨(SI.types.trans SM.types).trans SA.types,
         (SI.consts.trans SM.consts).trans SA.consts,
         (SI.nextId.trans SM.nextId).trans SA.nextId,
         (SI.bufferId.trans SM.bufferId).trans SA.bufferId,
         (SI.ptrId.trans SM.ptrId).trans SA.ptrId,
         ObsFrame.obs_trans (ObsFrame.obs_trans SA.obs SM.obs) SI.obs⟩

/-- Well-formedness of the state produced by the tail of the builder. -/
theorem builderTail_wf (s : PassState) (b : Nat) (hwf : StateWf s) :
    StateWf { appendInterfaceVar (maybeAddInt64Caps (addStorageBufferExt s)) b
        with basicBlockTraceBufferId := b } := by
  have SC := stateShell_chain s b
  refine ⟨?_, ?_⟩
  · show 0 <
      (appendInterfaceVar (maybeAddInt64Caps (addStorageBufferExt s)) b).nextId
    rw [SC.nextId]
    exact hwf.1
  · intro p hp
    have hp' : p ∈
        (appendInterfaceVar (maybeAddInt64Caps (addStorageBufferExt s))
          b).types := hp
    rw [SC.types] at hp'
    exact hwf.2 p hp'

/-- The builder keeps the allocation state well-formed and returns a
positive id. -/
theorem getBasicBlockTraceBufferId_wf (st : PassState)
    (h0 : st.basicBlockTraceBufferId = 0) (hwf : StateWf st) :
    StateWf (getBasicBlockTraceBufferId st).2 ∧
    0 < (getBasicBlockTraceBufferId st).1 := by
  obtain ⟨tid, st1, ptid, st2, hT, hP, hEq⟩ :=
    getBasicBlockTraceBufferId_build st h0
  have w1 := getTypeInstruction_wf st (traceStructKey st.traceWithU64) hwf
  rw [hT] at w1
  have w1' : StateWf (addMemberDecoration (addDecoration st1 tid
      decorationBlock) tid 0 decorationOffset 0) := w1.1
  have w2 := getTypeInstruction_wf
    (addMemberDecoration (addDecoration st1 tid decorationBlock) tid 0
      decorationOffset 0) (.ptr tid storageClassStorageBuffer) w1'
  have hP' : getTypeInstruction (addMemberDecoration (addDecoration st1 tid
      decorationBlock) tid 0 decorationOffset 0)
      (.ptr tid storageClassStorageBuffer) = (ptid, st2) := hP
  rw [hP'] at w2
  have wf2 : StateWf st2 := w2.1
  rw [hEq]
  exact ⟨builderTail_wf _ _ ⟨Nat.succ_pos st2.nextId, fun p hp => wf2.2 p hp⟩,
    wf2.1⟩

/-- **C3.** A block that receives instrumentation receives exactly two new
instructions, inserted after the label and after the contiguous leading run
of `OpVariable` declarations and before the first pre-existing
non-declaration instruction; the pre-existing instructions and their
relative order are unchanged (the leading declarations followed by the
remaining instructions reassemble the original body). -/
theorem processOneBlock_inserts_exactly_two (p : FnParams) (st : PassState)
    (bb : BasicBlock) (st' : PassState) (bb' : BasicBlock)
    (h : processOneBlock p st bb = .ok (st', bb', true)) :
    ∃ ins1 ins2,
      bb'.label = bb.label ∧
      bb'.body = bb.body.takeWhile isVariable ++ [ins1, ins2]
        ++ bb.body.dropWhile isVariable ∧
      bb.body.takeWhile isVariable ++ bb.body.dropWhile isVariable =
        bb.body ∧
      (∀ ins ∈ bb.body.takeWhile isVariable, isVariable ins = true) ∧
      (∀ x, ((bb.body.dropWhile isVariable).head? = some x) →
        isVariable x = false) := by
  obtain ⟨-, -, -, hshape⟩ := processOneBlock_spec p st bb st' bb' true h
  obtain ⟨t, cid, nPtr, -, -, hlab, hbody⟩ := hshape rfl
  refine ⟨_, _, hlab, hbody, List.takeWhile_append_dropWhile isVariable bb.body, ?_,
    head_dropWhile_not isVariable bb.body⟩
  intro ins hins
  exact List.mem_takeWhile_imp hins

/-- Witness for C3: a concrete entry block with two leading declarations
receives exactly two instructions between the declarations and the first
computation. -/
theorem processOneBlock_inserts_exactly_two_witness :
    ∃ st' bb' ins1 ins2,
      processOneBlock sampleParams idxState
        (mkBB 10 [sampleVar 40, sampleVar 41, sampleCompute 42, sampleTerm]) =
        .ok (st', bb', true) ∧
      bb'.body = [sampleVar 40, sampleVar 41] ++ [ins1, ins2]
        ++ [sampleCompute 42, sampleTerm] := by
  cases hres : processOneBlock sampleParams idxState
      (mkBB 10 [sampleVar 40, sampleVar 41, sampleCompute 42, sampleTerm]) with
  | error e =>
      have hok : isOkResult (processOneBlock sampleParams idxState
          (mkBB 10 [sampleVar 40, sampleVar 41, sampleCompute 42,
            sampleTerm])) = true := by decide
      rw [hres] at hok
      simp [isOkResult] at hok
  | ok out =>
      obtain ⟨st', bb', ch⟩ := out
      obtain ⟨-, hch, -, -⟩ := processOneBlock_spec sampleParams idxState
        (mkBB 10 [sampleVar 40, sampleVar 41, sampleCompute 42, sampleTerm])
        st' bb' ch hres
      have hch' : ch = true := by rw [hch]; decide
      subst hch'
      obtain ⟨ins1, ins2, -, hbody, -, -, -⟩ :=
        processOneBlock_inserts_exactly_two sampleParams idxState
          (mkBB 10 [sampleVar 40, sampleVar 41, sampleCompute 42, sampleTerm])
          st' bb' hres
      exact ⟨st', bb', ins1, ins2, rfl, hbody⟩

/-- **C4.** Per instrumented block the inserted increment is one
`OpAtomicIAdd` applied to the pointer produced by the inserted
`OpAccessChain`, whose memory-scope operand is the uint constant `1`
(device scope), whose memory-semantics operand is the uint constant `0`
(relaxed), and whose add operand is the constant `1` of the selected width;
no `OpLoad` / `OpIAdd` / `OpStore` sequence is emitted. -/
theorem processFunction_atomic_increment (bufId ptrId : Nat) (st : PassState)
    (f : Function) (st' : PassState) (f' : Function) (ch : Bool)
    (h : processFunction bufId ptrId st f = .ok (st', f', ch)) :
    f'.blocks.length = f.blocks.length ∧
    ∃ p : FnParams,
      tlookup st'.consts (.uintConst 32 memorySemanticsRelaxed) =
        some p.uintConstZeroId ∧
      tlookup st'.consts (.uintConst 32 scopeDevice) =
        some p.uintConstOneId ∧
      tlookup st'.types (.uint 32) = some p.tyUint ∧
      (st.traceWithU64 = true →
        tlookup st'.types (.uint 64) = some p.tyUlong ∧
        tlookup st'.consts (.uintConst 64 1) = some p.ulongConstOneId) ∧
      ∀ i (hi : i < f.blocks.length) (hi' : i < f'.blocks.length),
        instrumentable (f.blocks.get ⟨i, hi⟩) = true →
        ∃ nPtr cid,
          (f'.blocks.get ⟨i, hi'⟩).body =
            (f.blocks.get ⟨i, hi⟩).body.takeWhile isVariable
            ++ [mkAccessChain ptrId nPtr bufId p.uintConstZeroId cid,
                mkAtomicAdd (if st.traceWithU64 then p.tyUlong else p.tyUint)
                  (nPtr + 1) nPtr p.uintConstOneId p.uintConstZeroId
                  (if st.traceWithU64 then p.ulongConstOneId
                   else p.uintConstOneId)]
            ++ (f.blocks.get ⟨i, hi⟩).body.dropWhile isVariable ∧
          (mkAtomicAdd (if st.traceWithU64 then p.tyUlong else p.tyUint)
              (nPtr + 1) nPtr p.uintConstOneId p.uintConstZeroId
              (if st.traceWithU64 then p.ulongConstOneId
               else p.uintConstOneId)).opcode = .OpAtomicIAdd ∧
          ∀ ins ∈ [mkAccessChain ptrId nPtr bufId p.uintConstZeroId cid,
                   mkAtomicAdd
                     (if st.traceWithU64 then p.tyUlong else p.tyUint)
                     (nPtr + 1) nPtr p.uintConstOneId p.uintConstZeroId
                     (if st.traceWithU64 then p.ulongConstOneId
                      else p.uintConstOneId)],
            ins.opcode ≠ .OpLoad ∧ ins.opcode ≠ .OpIAdd ∧
            ins.opcode ≠ .OpStore := by
  obtain ⟨-, -, hlen, p, hp1, hp2, hz, ho, hut, hu64, helem⟩ :=
    processFunction_spec bufId ptrId st f st' f' ch h
  refine ⟨hlen, p, hz, ho, hut, hu64, ?_⟩
  intro i hi hi' hinstr
  obtain ⟨t, cid, nPtr, -, -, -, hbody⟩ := (helem i hi hi').2 hinstr
  rw [hp1, hp2] at hbody
  refine ⟨nPtr, cid, hbody, rfl, ?_⟩
  intro ins hins
  simp only [List.mem_cons, List.not_mem_nil, or_false] at hins
  rcases hins with rfl | rfl
  · exact ⟨by simp [mkAccessChain], by simp [mkAccessChain],
      by simp [mkAccessChain]⟩
  · exact ⟨by simp [mkAtomicAdd], by simp [mkAtomicAdd],
      by simp [mkAtomicAdd]⟩

/-- Witness for C4: the instrumentable fixture block receives an
`OpAccessChain` / `OpAtomicIAdd` pair whose scope and semantics operands
resolve to the uint constants 1 and 0. -/
theorem processFunction_atomic_increment_witness :
    ∃ st' f' ch, processFunction 60 61 idxState instrBlockFunc =
        .ok (st', f', ch) ∧
      ∃ p : FnParams,
        tlookup st'.consts (.uintConst 32 scopeDevice) =
          some p.uintConstOneId ∧
        tlookup st'.consts (.uintConst 32 memorySemanticsRelaxed) =
          some p.uintConstZeroId ∧
        ∃ (hi : 0 < instrBlockFunc.blocks.length)
          (hi' : 0 < f'.blocks.length) (nPtr cid : Nat),
          (f'.blocks.get ⟨0, hi'⟩).body =
            (instrBlockFunc.blocks.get ⟨0, hi⟩).body.takeWhile isVariable
            ++ [mkAccessChain 61 nPtr 60 p.uintConstZeroId cid,
                mkAtomicAdd p.tyUint (nPtr + 1) nPtr p.uintConstOneId
                  p.uintConstZeroId p.uintConstOneId]
            ++ (instrBlockFunc.blocks.get ⟨0, hi⟩).body.dropWhile
              isVariable := by
  cases hres : processFunction 60 61 idxState instrBlockFunc with
  | error e =>
      have hok : isOkResult (processFunction 60 61 idxState instrBlockFunc) =
          true := by decide
      rw [hres] at hok
      simp [isOkResult] at hok
  | ok out =>
      obtain ⟨st', f', ch⟩ := out
      obtain ⟨hlen, p, hz, ho, -, -, helem⟩ :=
        processFunction_atomic_increment 60 61 idxState instrBlockFunc st' f'
          ch hres
      have hi : 0 < instrBlockFunc.blocks.length := by decide
      have hi' : 0 < f'.blocks.length := by rw [hlen]; decide
      obtain ⟨nPtr, cid, hbody, -, -⟩ := helem 0 hi hi'
        (by show instrumentable (mkBB 11 [sampleCompute 43, sampleTerm]) = true
            decide)
      exact ⟨st', f', ch, rfl, p, ho, hz, hi, hi', nPtr, cid, hbody⟩

/-- **C6.** Within one pass run both accessors are idempotent: after the
first (building) call of each, every further call returns the same
identifier with the state unchanged; and the guarded extension/capability
declarations appear in the module exactly once when absent from the input
and are not re-added when present. -/
theorem trace_buffer_accessors_idempotent (st : PassState)
    (hwf : StateWf st)
    (hbuf0 : st.basicBlockTraceBufferId = 0)
    (hptr0 : st.ptrStorageBufferRuntimeArrayTypeId = 0)
    (hsb : st.storageBufferExtDefined = false)
    (hic : st.int64CapsDefined = false)
    (bufId : Nat) (sG : PassState)
    (hG : getBasicBlockTraceBufferId st = (bufId, sG))
    (ptrId : Nat) (sP : PassState)
    (hP : getPtrStorageBufferRuntimeArrayTypeId sG = (ptrId, sP)) :
    getBasicBlockTraceBufferId sP = (bufId, sP) ∧
    getPtrStorageBufferRuntimeArrayTypeId sP = (ptrId, sP) ∧
    sP.module.extensions.count kStorageBufferExtName =
      max 1 (st.module.extensions.count kStorageBufferExtName) ∧
    (st.traceWithU64 = true →
      sP.module.capabilities.count capabilityInt64 =
        max 1 (st.module.capabilities.count capabilityInt64) ∧
      sP.module.capabilities.count capabilityInt64Atomics =
        max 1 (st.module.capabilities.count capabilityInt64Atomics)) ∧
    (st.traceWithU64 = false →
      sP.module.capabilities = st.module.capabilities) := by
  obtain ⟨gBuf, gN, gLt, gObs, gPtr, gConsts, gTySub, gTid, gNm, gDs, gBd,
    gExt, gCaps, gEps, gVer, gRf⟩ :=
    getBasicBlockTraceBufferId_spec st bufId sG hbuf0 hsb hic hG
  obtain ⟨pPtr, pMod, pConsts, pObs, pBuf, pSb, pIc, pTySub, pN, pUid, pPos⟩ :=
    getPtrStorageBufferRuntimeArrayTypeId_spec sG ptrId sP
      (by rw [gPtr, hptr0]) hP
  have W := getBasicBlockTraceBufferId_wf st hbuf0 hwf
  rw [hG] at W
  have hbufpos : 0 < bufId := W.2
  have hptrpos : 0 < ptrId := pPos W.1
  refine ⟨?_, ?_, ?_, ?_, ?_⟩
  · have hne : sP.basicBlockTraceBufferId ≠ 0 := by
      rw [pBuf, gBuf]; omega
    rw [getBasicBlockTraceBufferId_cached sP hne, pBuf, gBuf]
  · have hne : sP.ptrStorageBufferRuntimeArrayTypeId ≠ 0 := by
      rw [pPtr]; omega
    rw [getPtrStorageBufferRuntimeArrayTypeId_cached sP hne, pPtr]
  · rw [pMod, gExt, addExtIfAbsent_count]
  · intro hu
    rw [pMod, gCaps, if_pos hu]
    exact ⟨by rw [addCapIfAbsent_count_ne _ _ _ (by decide),
        addCapIfAbsent_count],
      by rw [addCapIfAbsent_count, addCapIfAbsent_count_ne _ _ _ (by decide)]⟩
  · intro hu
    rw [pMod, gCaps, if_neg (by simp [hu])]

/-- Witness for C6 on the 64-bit sample state: repeated calls are identity
and the extension and both capabilities each occur exactly once. -/
theorem trace_buffer_accessors_idempotent_witness :
    ∃ bufId sG ptrId sP,
      getBasicBlockTraceBufferId (mkState sampleModule true) = (bufId, sG) ∧
      getPtrStorageBufferRuntimeArrayTypeId sG = (ptrId, sP) ∧
      getBasicBlockTraceBufferId sP = (bufId, sP) ∧
      getPtrStorageBufferRuntimeArrayTypeId sP = (ptrId, sP) ∧
      sP.module.extensions.count kStorageBufferExtName = 1 ∧
      sP.module.capabilities.count capabilityInt64 = 1 ∧
      sP.module.capabilities.count capabilityInt64Atomics = 1 := by
  rcases hG : getBasicBlockTraceBufferId (mkState sampleModule true)
    with ⟨bufId, sG⟩
  rcases hP : getPtrStorageBufferRuntimeArrayTypeId sG with ⟨ptrId, sP⟩
  obtain ⟨h1, h2, h3, h4, -⟩ :=
    trace_buffer_accessors_idempotent (mkState sampleModule true)
      ⟨by decide, by decide⟩ rfl rfl rfl rfl bufId sG hG ptrId sP hP
  obtain ⟨h5, h6⟩ := h4 rfl
  exact ⟨bufId, sG, ptrId, sP, rfl, hP, h1, h2, h3, h5, h6⟩

/-- **C8.** The counter buffer variable id is appended to every entry
point's operand list exactly when the module version is at least the SPIR-V
1.4 version word; for lower versions the entry points are untouched. -/
theorem interface_append_iff_version (st : PassState) (bufId : Nat)
    (st' : PassState)
    (h0 : st.basicBlockTraceBufferId = 0)
    (hsb : st.storageBufferExtDefined = false)
    (hic : st.int64CapsDefined = false)
    (heq : getBasicBlockTraceBufferId st = (bufId, st')) :
    (st.module.version ≥ spirvVersionWord 1 4 →
      st'.module.entryPoints = st.module.entryPoints.map (fun e =>
        { e with operands := e.operands ++ [⟨.Id, .words [bufId]⟩] })) ∧
    (¬ st.module.version ≥ spirvVersionWord 1 4 →
      st'.module.entryPoints = st.module.entryPoints) := by
  obtain ⟨-, -, -, -, -, -, -, -, -, -, -, -, -, gEps, -, -⟩ :=
    getBasicBlockTraceBufferId_spec st bufId st' h0 hsb hic heq
  constructor
  · intro hge
    rw [gEps, if_pos hge]
  · intro hlt
    rw [gEps, if_neg hlt]

/-- Witness for C8: the SPIR-V 1.4 sample module has the new id appended to
its entry point; the SPIR-V 1.0 module's entry points are untouched. -/
theorem interface_append_iff_version_witness :
    (∃ bufId sG,
      getBasicBlockTraceBufferId (mkState sampleModule false) =
        (bufId, sG) ∧
      sG.module.entryPoints = sampleModule.entryPoints.map (fun e =>
        { e with operands := e.operands ++ [⟨.Id, .words [bufId]⟩] })) ∧
    (∃ bufId sG,
      getBasicBlockTraceBufferId (mkState declOnlyModule false) =
        (bufId, sG) ∧
      sG.module.entryPoints = declOnlyModule.entryPoints) := by
  constructor
  · rcases hG : getBasicBlockTraceBufferId (mkState sampleModule false)
      with ⟨bufId, sG⟩
    obtain ⟨hpos, -⟩ := interface_append_iff_version
      (mkState sampleModule false) bufId sG rfl rfl rfl hG
    exact ⟨bufId, sG, rfl, hpos (by decide)⟩
  · rcases hG : getBasicBlockTraceBufferId (mkState declOnlyModule false)
      with ⟨bufId, sG⟩
    obtain ⟨-, hneg⟩ := interface_append_iff_version
      (mkState declOnlyModule false) bufId sG rfl rfl rfl hG
    exact ⟨bufId, sG, rfl, hneg (by decide)⟩

/-- **C7.** Width selection is fully determined by the construction-time
flag: the registered counter struct wraps a runtime array of 32-bit
(resp. 64-bit) uints decorated with `ArrayStride` 4 (resp. 8); in 32-bit
mode no capability is added while in 64-bit mode the `Int64` and
`Int64Atomics` capabilities are declared; and each instrumented block's
atomic add uses the 32-bit (resp. 64-bit) result type and constant-1
operand. -/
theorem trace_width_selection (st : PassState) (bufId : Nat) (sG : PassState)
    (hbuf0 : st.basicBlockTraceBufferId = 0)
    (hsb : st.storageBufferExtDefined = false)
    (hic : st.int64CapsDefined = false)
    (hG : getBasicBlockTraceBufferId st = (bufId, sG))
    (ptrId bufId2 : Nat) (s0 : PassState) (f : Function) (sF : PassState)
    (f' : Function) (ch : Bool)
    (hu : s0.traceWithU64 = st.traceWithU64)
    (hF : processFunction bufId2 ptrId s0 f = .ok (sF, f', ch)) :
    (∃ tid, tlookup sG.types
        (.structOne (.runtimeArray
          (.uint (if st.traceWithU64 then 64 else 32))
          [[decorationArrayStride, if st.traceWithU64 then 8 else 4]]) []) =
        some tid) ∧
    (st.traceWithU64 = false →
      sG.module.capabilities = st.module.capabilities) ∧
    (st.traceWithU64 = true →
      sG.module.capabilities =
        addCapIfAbsent
          (addCapIfAbsent st.module.capabilities capabilityInt64)
          capabilityInt64Atomics) ∧
    (∃ p : FnParams,
      tlookup sF.types (.uint 32) = some p.tyUint ∧
      tlookup sF.consts (.uintConst 32 1) = some p.uintConstOneId ∧
      (st.traceWithU64 = true →
        tlookup sF.types (.uint 64) = some p.tyUlong ∧
        tlookup sF.consts (.uintConst 64 1) = some p.ulongConstOneId) ∧
      ∀ i (hi : i < f.blocks.length) (hi' : i < f'.blocks.length),
        instrumentable (f.blocks.get ⟨i, hi⟩) = true →
        ∃ nPtr cid,
          (f'.blocks.get ⟨i, hi'⟩).body =
            (f.blocks.get ⟨i, hi⟩).body.takeWhile isVariable
            ++ [mkAccessChain ptrId nPtr bufId2 p.uintConstZeroId cid,
                mkAtomicAdd
                  (if st.traceWithU64 then p.tyUlong else p.tyUint)
                  (nPtr + 1) nPtr p.uintConstOneId p.uintConstZeroId
                  (if st.traceWithU64 then p.ulongConstOneId
                   else p.uintConstOneId)]
            ++ (f.blocks.get ⟨i, hi⟩).body.dropWhile isVariable) := by
  obtain ⟨gBuf, gN, gLt, gObs, gPtr, gConsts, gTySub, gTid, gNm, gDs, gBd,
    gExt, gCaps, gEps, gVer, gRf⟩ :=
    getBasicBlockTraceBufferId_spec st bufId sG hbuf0 hsb hic hG
  obtain ⟨tid, hTid, -, -, -⟩ := gTid
  obtain ⟨-, -, -, p, hp1, hp2, hz, ho, hut, hu64, helem⟩ :=
    processFunction_spec bufId2 ptrId s0 f sF f' ch hF
  refine ⟨⟨tid, hTid⟩, ?_, ?_, p, hut, ho, ?_, ?_⟩
  · intro h
    rw [gCaps, if_neg (by simp [h])]
  · intro h
    rw [gCaps, if_pos h]
  · intro h
    exact hu64 (by rw [hu]; exact h)
  · intro i hi hi' hinstr
    obtain ⟨t, cid, nPtr, -, -, -, hbody⟩ := (helem i hi hi').2 hinstr
    rw [hp1, hp2, hu] at hbody
    exact ⟨nPtr, cid, hbody⟩

/-- Witness for C7 in 64-bit mode: stride-8 64-bit array type, both 64-bit
capabilities, and a 64-bit result type for the atomic add. -/
theorem trace_width_selection_witness :
    ∃ bufId sG sF f' ch,
      getBasicBlockTraceBufferId (mkState sampleModule true) = (bufId, sG) ∧
      processFunction 60 61 idxState64 instrBlockFunc = .ok (sF, f', ch) ∧
      (∃ tid, tlookup sG.types
          (.structOne (.runtimeArray (.uint 64) [[decorationArrayStride, 8]])
            []) = some tid) ∧
      sG.module.capabilities =
        addCapIfAbsent (addCapIfAbsent [] capabilityInt64)
          capabilityInt64Atomics ∧
      ∃ p : FnParams, tlookup sF.types (.uint 64) = some p.tyUlong := by
  rcases hG : getBasicBlockTraceBufferId (mkState sampleModule true)
    with ⟨bufId, sG⟩
  cases hF : processFunction 60 61 idxState64 instrBlockFunc with
  | error e =>
      have hok : isOkResult (processFunction 60 61 idxState64 instrBlockFunc) =
          true := by decide
      rw [hF] at hok
      simp [isOkResult] at hok
  | ok out =>
      obtain ⟨sF, f', ch⟩ := out
      obtain ⟨hstruct, -, hcaps, p, -, -, hu64d, -⟩ :=
        trace_width_selection (mkState sampleModule true) bufId sG rfl rfl
          rfl hG 61 60 idxState64 instrBlockFunc sF f' ch rfl hF
      exact ⟨bufId, sG, sF, f', ch, rfl, rfl, hstruct, hcaps rfl,
        p, (hu64d rfl).1⟩

end SpvOpt
